import Mathlib

/-!
# CPlotLib colour conversions (`include/CPLColors.h`)

A shallow embedding of the two conversion routines `HSVtoRGB` and `RGBtoHSV`,
of the `Color` / `ColorHSV` records they write to, and of the named colour
constants `COLOR_*`.

Conventions of the embedding:

* Values of the C type `float` are rationals (`ℚ`). `HSVtoRGB` and `RGBtoHSV`
  compute in exact arithmetic: rounding is not modelled in them, and what is
  proved of them is a statement in exact arithmetic.
* `HSVtoRGB32` is `HSVtoRGB` with every `float` operation rounded to binary32
  (`fl32`); it is used to evaluate the routine where rounding decides.
* An out-parameter `T* out` is modelled by state passing: the routine takes the
  record as it is before the call and returns the record as it is afterwards.
* The cast `(int)h` is truncation toward zero into the 32-bit range of `int`
  (`truncToInt`).
* A float literal such as `0.84f` is modelled by the decimal it is written as.
* Float division is modelled as a partial operation (`fdiv`); a routine that
  contains a division by a variable returns an `Exec`, which records whether
  the run completed or stopped at a division by zero, and the record as it was
  written up to that point.
-/

set_option linter.unnecessarySeqFocus false

namespace CPLColors

/-- A colour in RGBA format (`struct Color`). -/
structure Color where
  r : ℚ
  g : ℚ
  b : ℚ
  a : ℚ
  deriving DecidableEq, Repr

/-- A colour in HSV format (`struct ColorHSV`). -/
structure ColorHSV where
  h : ℚ
  s : ℚ
  v : ℚ
  deriving DecidableEq, Repr

/-- The C cast `(int)x` to the 32-bit type `int`: the integer part of `x`,
truncated toward zero, when that integer is in the range of `int`, from
`INT_MIN = -2147483648` to `INT_MAX = 2147483647`. Outside that range C leaves
the cast undefined; the value taken here is `INT_MIN`, the result the x86
conversion instruction delivers for a value out of range. -/
def truncToInt (x : ℚ) : ℤ :=
  if -2147483649 < x ∧ x < 2147483648 then
    (if 0 ≤ x then ⌊x⌋ else ⌈x⌉)
  else -2147483648

/-- The C library function `fmaxf` on exact values. -/
def fmaxf (x y : ℚ) : ℚ := if x < y then y else x

/-- The C library function `fminf` on exact values. -/
def fminf (x y : ℚ) : ℚ := if y < x then y else x

/-- Division as a partial operation: no result when the divisor is zero. -/
def fdiv (x y : ℚ) : Option ℚ :=
  if y = 0 then none else some (x / y)

/-- Outcome of a run of a routine writing to a record of type `σ`:
`done st` when the routine returned with the record equal to `st`,
`divByZero st` when it reached a division with a zero divisor, the record
being `st` at that point. -/
inductive Exec (σ : Type) where
  | done (st : σ) : Exec σ
  | divByZero (st : σ) : Exec σ
  deriving DecidableEq, Repr

/-- The record as written by the run, however it ended. -/
def Exec.state {σ : Type} : Exec σ → σ
  | .done st => st
  | .divByZero st => st

/-- The routine `HSVtoRGB(h, s, v, out)`, lines 35-83, in exact arithmetic: the
record `*out` after the call. -/
def HSVtoRGB (h s v : ℚ) (out : Color) : Color :=
  if s = 0 then
    { out with r := v, g := v, b := v }
  else
    let h := h / 60
    let i : ℤ := truncToInt h
    let f := h - i
    let p := v * (1 - s)
    let q := v * (1 - s * f)
    let t := v * (1 - s * (1 - f))
    if i = 0 then { out with r := v, g := t, b := p }
    else if i = 1 then { out with r := q, g := v, b := p }
    else if i = 2 then { out with r := p, g := v, b := t }
    else if i = 3 then { out with r := p, g := q, b := v }
    else if i = 4 then { out with r := t, g := p, b := v }
    else { out with r := v, g := p, b := q }

/-- The largest channel, `fmaxf(r, fmaxf(g, b))` (line 94). -/
def maxRGB (r g b : ℚ) : ℚ := fmaxf r (fmaxf g b)

/-- The smallest channel, `fminf(r, fminf(g, b))` (line 95). -/
def minRGB (r g b : ℚ) : ℚ := fminf r (fminf g b)

/-- Lines 108-113 of `RGBtoHSV`: the hue in sector units, before scaling. -/
def hueSector (r g b max delta : ℚ) : Option ℚ :=
  if r ≥ max then fdiv (g - b) delta
  else if g ≥ max then (fdiv (b - r) delta).map (fun x => 2 + x)
  else (fdiv (r - g) delta).map (fun x => 4 + x)

/-- Lines 115-117 of `RGBtoHSV`: scale the hue to degrees and wrap a negative
value by a full turn. -/
def scaleWrap (out : ColorHSV) : ColorHSV :=
  let out := { out with h := out.h * 60 }
  if out.h < 0 then { out with h := out.h + 360 } else out

/-- The routine `RGBtoHSV(r, g, b, out)`, lines 92-118: how the run ends and the record
`*out` at that point. -/
def RGBtoHSV (r g b : ℚ) (out : ColorHSV) : Exec ColorHSV :=
  let max := maxRGB r g b
  let min := minRGB r g b
  let delta := max - min
  let out := { out with v := max }
  if max > 0 then
    match fdiv delta max with
    | none => .divByZero out
    | some s =>
      let out := { out with s := s }
      match hueSector r g b max delta with
      | none => .divByZero out
      | some h => .done (scaleWrap { out with h := h })
  else
    .done { out with s := 0, h := -1 }

/-- The hue in sector units as lines 108-113 compute it when `delta ≠ 0`. -/
def hueUnits (r g b : ℚ) : ℚ :=
  if r ≥ maxRGB r g b then (g - b) / (maxRGB r g b - minRGB r g b)
  else if g ≥ maxRGB r g b then 2 + (b - r) / (maxRGB r g b - minRGB r g b)
  else 4 + (r - g) / (maxRGB r g b - minRGB r g b)

/-! ## The routine `HSVtoRGB` in binary32 arithmetic -/

/-- Rounding of an exact value to the nearest integer, a tie going to the even
neighbour. -/
def roundTiesEven (y : ℚ) : ℤ :=
  let n := ⌊y⌋
  let r := y - n
  if r < 1 / 2 then n
  else if 1 / 2 < r then n + 1
  else if n % 2 = 0 then n else n + 1

/-- The binary32 exponent of `x`: the `e` with `2 ^ e ≤ |x| < 2 ^ (e + 1)`, and
`-126` for the smaller (subnormal) values. -/
def expo32 (x : ℚ) : ℤ := max (Int.log 2 |x|) (-126)

/-- Rounding of an exact value to binary32 (24 significant bits, round to
nearest, ties to even): around `x` the representable values are the multiples
of `2 ^ (expo32 x - 23)`. Overflow to infinity (magnitudes from `2 ^ 128`) is not
modelled. -/
def fl32 (x : ℚ) : ℚ :=
  roundTiesEven (x / 2 ^ (expo32 x - 23)) * 2 ^ (expo32 x - 23)

/-- The routine `HSVtoRGB(h, s, v, out)`, lines 35-83, on binary32 arguments
with every operation on `float` rounded to binary32, the conversion of `i` to
`float` in `h - i` included. -/
def HSVtoRGB32 (h s v : ℚ) (out : Color) : Color :=
  if s = 0 then
    { out with r := v, g := v, b := v }
  else
    let h := fl32 (h / 60)
    let i : ℤ := truncToInt h
    let f := fl32 (h - fl32 i)
    let p := fl32 (v * fl32 (1 - s))
    let q := fl32 (v * fl32 (1 - fl32 (s * f)))
    let t := fl32 (v * fl32 (1 - fl32 (s * fl32 (1 - f))))
    if i = 0 then { out with r := v, g := t, b := p }
    else if i = 1 then { out with r := q, g := v, b := p }
    else if i = 2 then { out with r := p, g := v, b := t }
    else if i = 3 then { out with r := p, g := q, b := v }
    else if i = 4 then { out with r := t, g := p, b := v }
    else { out with r := v, g := p, b := q }


/-! ## The named colour constants (lines 120-170) -/

def COLOR_BLACK : Color := ⟨0.0, 0.0, 0.0, 1.0⟩
def COLOR_WHITE : Color := ⟨1.0, 1.0, 1.0, 1.0⟩
def COLOR_RED : Color := ⟨1.0, 0.0, 0.0, 1.0⟩
def COLOR_GREEN : Color := ⟨0.0, 1.0, 0.0, 1.0⟩
def COLOR_BLUE : Color := ⟨0.0, 0.0, 1.0, 1.0⟩
def COLOR_YELLOW : Color := ⟨1.0, 1.0, 0.0, 1.0⟩
def COLOR_MAGENTA : Color := ⟨1.0, 0.0, 1.0, 1.0⟩
def COLOR_CYAN : Color := ⟨0.0, 1.0, 1.0, 1.0⟩
def COLOR_ORANGE : Color := ⟨1.0, 0.5, 0.0, 1.0⟩
def COLOR_PURPLE : Color := ⟨0.5, 0.0, 0.5, 1.0⟩
def COLOR_PINK : Color := ⟨1.0, 0.5, 0.5, 1.0⟩
def COLOR_LIME : Color := ⟨0.5, 1.0, 0.0, 1.0⟩
def COLOR_TEAL : Color := ⟨0.0, 0.5, 0.5, 1.0⟩
def COLOR_LAVENDER : Color := ⟨0.5, 0.0, 1.0, 1.0⟩
def COLOR_BROWN : Color := ⟨0.6, 0.3, 0.0, 1.0⟩
def COLOR_BEIGE : Color := ⟨0.9, 0.9, 0.7, 1.0⟩
def COLOR_MAROON : Color := ⟨0.5, 0.0, 0.0, 1.0⟩
def COLOR_MINT : Color := ⟨0.0, 0.5, 0.3, 1.0⟩
def COLOR_OLIVE : Color := ⟨0.5, 0.5, 0.0, 1.0⟩
def COLOR_CORAL : Color := ⟨1.0, 0.5, 0.3, 1.0⟩
def COLOR_NAVY : Color := ⟨0.0, 0.0, 0.5, 1.0⟩
def COLOR_TURQUOISE : Color := ⟨0.0, 0.5, 0.5, 1.0⟩
def COLOR_SILVER : Color := ⟨0.75, 0.75, 0.75, 1.0⟩
def COLOR_GOLD : Color := ⟨1.0, 0.84, 0.0, 1.0⟩
def COLOR_SKYBLUE : Color := ⟨0.53, 0.81, 0.98, 1.0⟩
def COLOR_VIOLET : Color := ⟨0.93, 0.51, 0.93, 1.0⟩
def COLOR_INDIGO : Color := ⟨0.29, 0.0, 0.51, 1.0⟩
def COLOR_AQUAMARINE : Color := ⟨0.5, 1.0, 0.83, 1.0⟩
def COLOR_TAN : Color := ⟨0.82, 0.71, 0.55, 1.0⟩
def COLOR_LINEN : Color := ⟨0.98, 0.94, 0.9, 1.0⟩
def COLOR_IVORY : Color := ⟨1.0, 1.0, 0.94, 1.0⟩
def COLOR_SNOW : Color := ⟨1.0, 0.98, 0.98, 1.0⟩
def COLOR_SEASHELL : Color := ⟨1.0, 0.96, 0.93, 1.0⟩
def COLOR_LAVENDERBLUSH : Color := ⟨1.0, 0.94, 0.96, 1.0⟩
def COLOR_FLORALWHITE : Color := ⟨1.0, 0.98, 0.94, 1.0⟩
def COLOR_ALICEBLUE : Color := ⟨0.94, 0.97, 1.0, 1.0⟩
def COLOR_HONEYDEW : Color := ⟨0.94, 1.0, 0.94, 1.0⟩
def COLOR_LIGHTCYAN : Color := ⟨0.88, 1.0, 1.0, 1.0⟩
def COLOR_LIGHTYELLOW : Color := ⟨1.0, 1.0, 0.88, 1.0⟩
def COLOR_LIGHTGOLDENRODYELLOW : Color := ⟨0.98, 0.98, 0.82, 1.0⟩
def COLOR_PAPAYAWHIP : Color := ⟨1.0, 0.94, 0.84, 1.0⟩
def COLOR_MISTYROSE : Color := ⟨1.0, 0.89, 0.88, 1.0⟩
def COLOR_LEMONCHIFFON : Color := ⟨1.0, 0.98, 0.8, 1.0⟩
def COLOR_LIGHTGOLDENROD : Color := ⟨0.98, 0.98, 0.82, 1.0⟩
def COLOR_LIGHTCORAL : Color := ⟨0.94, 0.5, 0.5, 1.0⟩
def COLOR_SALMON : Color := ⟨0.98, 0.5, 0.45, 1.0⟩
def COLOR_DARKSALMON : Color := ⟨0.91, 0.59, 0.48, 1.0⟩
def COLOR_LIGHTSALMON : Color := ⟨1.0, 0.63, 0.48, 1.0⟩
def COLOR_CRIMSON : Color := ⟨0.86, 0.08, 0.24, 1.0⟩
def COLOR_FIREBRICK : Color := ⟨0.7, 0.13, 0.13, 1.0⟩
def COLOR_DARKRED : Color := ⟨0.55, 0.0, 0.0, 1.0⟩

/-- The catalog: every named colour constant of the header, in source order. -/
def catalog : List Color :=
  [COLOR_BLACK,
   COLOR_WHITE,
   COLOR_RED,
   COLOR_GREEN,
   COLOR_BLUE,
   COLOR_YELLOW,
   COLOR_MAGENTA,
   COLOR_CYAN,
   COLOR_ORANGE,
   COLOR_PURPLE,
   COLOR_PINK,
   COLOR_LIME,
   COLOR_TEAL,
   COLOR_LAVENDER,
   COLOR_BROWN,
   COLOR_BEIGE,
   COLOR_MAROON,
   COLOR_MINT,
   COLOR_OLIVE,
   COLOR_CORAL,
   COLOR_NAVY,
   COLOR_TURQUOISE,
   COLOR_SILVER,
   COLOR_GOLD,
   COLOR_SKYBLUE,
   COLOR_VIOLET,
   COLOR_INDIGO,
   COLOR_AQUAMARINE,
   COLOR_TAN,
   COLOR_LINEN,
   COLOR_IVORY,
   COLOR_SNOW,
   COLOR_SEASHELL,
   COLOR_LAVENDERBLUSH,
   COLOR_FLORALWHITE,
   COLOR_ALICEBLUE,
   COLOR_HONEYDEW,
   COLOR_LIGHTCYAN,
   COLOR_LIGHTYELLOW,
   COLOR_LIGHTGOLDENRODYELLOW,
   COLOR_PAPAYAWHIP,
   COLOR_MISTYROSE,
   COLOR_LEMONCHIFFON,
   COLOR_LIGHTGOLDENROD,
   COLOR_LIGHTCORAL,
   COLOR_SALMON,
   COLOR_DARKSALMON,
   COLOR_LIGHTSALMON,
   COLOR_CRIMSON,
   COLOR_FIREBRICK,
   COLOR_DARKRED]

/-! ## Elementary facts about the helpers -/

theorem le_maxRGB (r g b : ℚ) :
    r ≤ maxRGB r g b ∧ g ≤ maxRGB r g b ∧ b ≤ maxRGB r g b := by
  unfold maxRGB fmaxf
  split_ifs <;> refine ⟨?_, ?_, ?_⟩ <;> linarith

theorem minRGB_le (r g b : ℚ) :
    minRGB r g b ≤ r ∧ minRGB r g b ≤ g ∧ minRGB r g b ≤ b := by
  unfold minRGB fminf
  split_ifs <;> refine ⟨?_, ?_, ?_⟩ <;> linarith

theorem maxRGB_mem (r g b : ℚ) :
    maxRGB r g b = r ∨ maxRGB r g b = g ∨ maxRGB r g b = b := by
  unfold maxRGB fmaxf
  split_ifs <;> simp

theorem minRGB_mem (r g b : ℚ) :
    minRGB r g b = r ∨ minRGB r g b = g ∨ minRGB r g b = b := by
  unfold minRGB fminf
  split_ifs <;> simp

theorem minRGB_le_maxRGB (r g b : ℚ) : minRGB r g b ≤ maxRGB r g b :=
  le_trans (minRGB_le r g b).1 (le_maxRGB r g b).1

/-- The largest and the smallest channel coincide exactly when the three
channels are equal. -/
theorem maxRGB_eq_minRGB_iff (r g b : ℚ) :
    maxRGB r g b = minRGB r g b ↔ r = g ∧ g = b := by
  have hM := le_maxRGB r g b
  have hm := minRGB_le r g b
  constructor
  · intro h
    constructor <;> linarith [hM.1, hM.2.1, hM.2.2, hm.1, hm.2.1, hm.2.2]
  · rintro ⟨rfl, rfl⟩
    simp [maxRGB, minRGB, fmaxf, fminf]

theorem fdiv_of_ne {x y : ℚ} (hy : y ≠ 0) : fdiv x y = some (x / y) := by
  simp [fdiv, hy]

/-- Truncation of a non-negative value with integer part `k` and fractional
part `f`. -/
theorem truncToInt_add_frac (k : ℤ) (f : ℚ) (hk : 0 ≤ k) (hk31 : k < 2147483648)
    (hf0 : 0 ≤ f) (hf1 : f < 1) :
    truncToInt ((k : ℚ) + f) = k := by
  have hk' : (0 : ℚ) ≤ (k : ℚ) := by exact_mod_cast hk
  have hk1 : (k : ℚ) + 1 ≤ 2147483648 := by exact_mod_cast (show k + 1 ≤ 2147483648 by omega)
  have h0 : (0 : ℚ) ≤ (k : ℚ) + f := by linarith
  have hr : -2147483649 < (k : ℚ) + f ∧ (k : ℚ) + f < 2147483648 :=
    ⟨by linarith, by linarith⟩
  unfold truncToInt
  rw [if_pos hr, if_pos h0, Int.floor_eq_iff]
  constructor <;> linarith

/-! ## The runs of `RGBtoHSV` -/

/-- The sentinel branch: the largest channel is not positive. -/
theorem RGBtoHSV_of_max_nonpos (r g b : ℚ) (out : ColorHSV) (hM : maxRGB r g b ≤ 0) :
    RGBtoHSV r g b out = .done ⟨-1, 0, maxRGB r g b⟩ := by
  unfold RGBtoHSV
  simp [not_lt.mpr hM]

/-- A gray that is not black: the saturation is written, then the hue
computation divides by `delta = 0`. -/
theorem RGBtoHSV_of_gray (r g b : ℚ) (out : ColorHSV) (hM : 0 < maxRGB r g b)
    (hd : maxRGB r g b = minRGB r g b) :
    RGBtoHSV r g b out = .divByZero ⟨out.h, 0, maxRGB r g b⟩ := by
  unfold RGBtoHSV
  simp only [gt_iff_lt, hM, if_true, fdiv_of_ne (ne_of_gt hM)]
  simp [hueSector, fdiv, hd]

/-- A colour with a positive largest channel and channels not all equal:
both divisions are defined and the run completes. -/
theorem RGBtoHSV_of_chromatic (r g b : ℚ) (out : ColorHSV) (hM : 0 < maxRGB r g b)
    (hd : maxRGB r g b ≠ minRGB r g b) :
    RGBtoHSV r g b out = .done (scaleWrap
      ⟨hueUnits r g b, (maxRGB r g b - minRGB r g b) / maxRGB r g b, maxRGB r g b⟩) := by
  have hd' : maxRGB r g b - minRGB r g b ≠ 0 := sub_ne_zero.mpr hd
  unfold RGBtoHSV
  simp only [gt_iff_lt, hM, if_true, fdiv_of_ne (ne_of_gt hM)]
  simp only [hueSector, hueUnits, fdiv_of_ne hd']
  split_ifs <;> simp

/-! ## The runs of `HSVtoRGB` and the round trip from RGB -/

/-- The result of `HSVtoRGB` on a non-negative hue given by its sector `k` and fraction `f`. -/
theorem HSVtoRGB_of_sector (h s v : ℚ) (out : Color) (k : ℤ) (f : ℚ) (hs : s ≠ 0)
    (hk : 0 ≤ k) (hk31 : k < 2147483648) (hf0 : 0 ≤ f) (hf1 : f < 1)
    (hh : h = 60 * ((k : ℚ) + f)) :
    HSVtoRGB h s v out =
      if k = 0 then { out with r := v, g := v * (1 - s * (1 - f)), b := v * (1 - s) }
      else if k = 1 then { out with r := v * (1 - s * f), g := v, b := v * (1 - s) }
      else if k = 2 then { out with r := v * (1 - s), g := v, b := v * (1 - s * (1 - f)) }
      else if k = 3 then { out with r := v * (1 - s), g := v * (1 - s * f), b := v }
      else if k = 4 then { out with r := v * (1 - s * (1 - f)), g := v * (1 - s), b := v }
      else { out with r := v, g := v * (1 - s), b := v * (1 - s * f) } := by
  have h60 : h / 60 = (k : ℚ) + f := by rw [hh]; ring
  unfold HSVtoRGB
  simp only [if_neg hs, h60, truncToInt_add_frac k f hk hk31 hf0 hf1, add_sub_cancel_left]

theorem scaleWrap_of_nonneg (x s v : ℚ) (hx : 0 ≤ x) :
    scaleWrap ⟨x, s, v⟩ = ⟨x * 60, s, v⟩ := by
  have : ¬ x * 60 < 0 := by linarith
  simp [scaleWrap, this]

theorem scaleWrap_of_neg (x s v : ℚ) (hx : x < 0) :
    scaleWrap ⟨x, s, v⟩ = ⟨x * 60 + 360, s, v⟩ := by
  have : x * 60 < 0 := by linarith
  simp [scaleWrap, this]

/-- The core of the RGB -> HSV -> RGB round trip: on a colour with a positive
largest channel and channels not all equal, `RGBtoHSV` completes with a hue
`60 * (k + f)` for a sector `0 ≤ k ≤ 5` and a fraction `0 ≤ f < 1`, and
`HSVtoRGB` maps the result back to the channels it came from. -/
theorem roundtrip_core (r g b : ℚ) (out : ColorHSV) (outc : Color)
    (hM : 0 < maxRGB r g b) (hd : maxRGB r g b ≠ minRGB r g b) :
    ∃ (k : ℤ) (f : ℚ), 0 ≤ k ∧ k ≤ 5 ∧ 0 ≤ f ∧ f < 1 ∧
      RGBtoHSV r g b out = .done ⟨60 * ((k : ℚ) + f),
        (maxRGB r g b - minRGB r g b) / maxRGB r g b, maxRGB r g b⟩ ∧
      HSVtoRGB (60 * ((k : ℚ) + f)) ((maxRGB r g b - minRGB r g b) / maxRGB r g b)
        (maxRGB r g b) outc = { outc with r := r, g := g, b := b } := by
  have hle := le_maxRGB r g b
  have hge := minRGB_le r g b
  have hlt : minRGB r g b < maxRGB r g b :=
    lt_of_le_of_ne (minRGB_le_maxRGB r g b) (Ne.symm hd)
  have hs : (maxRGB r g b - minRGB r g b) / maxRGB r g b ≠ 0 :=
    div_ne_zero (sub_ne_zero.mpr hd) (ne_of_gt hM)
  rw [RGBtoHSV_of_chromatic r g b out hM hd]
  by_cases hr : r ≥ maxRGB r g b
  · -- red is the largest channel
    have hMr : maxRGB r g b = r := le_antisymm hr hle.1
    by_cases hgb : b ≤ g
    · have hmb : minRGB r g b = b := by
        rcases minRGB_mem r g b with h | h | h <;> linarith
      simp only [hueUnits, hMr, hmb, ge_iff_le, le_refl, if_true] at hlt hs hM ⊢
      have hdpos : 0 < r - b := by linarith
      have hr0 : r ≠ 0 := ne_of_gt hM
      have hd0 : r - b ≠ 0 := ne_of_gt hdpos
      by_cases hgr : g = r
      · refine ⟨1, 0, by norm_num, by norm_num, le_refl _, by norm_num, ?_, ?_⟩
        · subst hgr
          simp [scaleWrap, div_self hd0]
        · rw [HSVtoRGB_of_sector _ _ _ outc 1 0 hs (by norm_num) (by norm_num) (le_refl _) (by norm_num) rfl]
          subst hgr
          simp
          field_simp
      · have hgr' : g < r := lt_of_le_of_ne (by linarith [hle.2.1]) hgr
        have hf0 : 0 ≤ (g - b) / (r - b) := div_nonneg (by linarith) hdpos.le
        have hf1 : (g - b) / (r - b) < 1 := (div_lt_one hdpos).mpr (by linarith)
        refine ⟨0, (g - b) / (r - b), by norm_num, by norm_num, hf0, hf1, ?_, ?_⟩
        · rw [scaleWrap_of_nonneg _ _ _ hf0]
          simp
          ring
        · rw [HSVtoRGB_of_sector _ _ _ outc 0 _ hs (by norm_num) (by norm_num) hf0 hf1 rfl]
          simp
          constructor <;> field_simp <;> ring
    · have hgb' : g < b := not_le.mp hgb
      have hmg : minRGB r g b = g := by
        rcases minRGB_mem r g b with h | h | h <;> linarith
      simp only [hueUnits, hMr, hmg, ge_iff_le, le_refl, if_true] at hlt hs hM ⊢
      have hdpos : 0 < r - g := by linarith
      have hr0 : r ≠ 0 := ne_of_gt hM
      have hd0 : r - g ≠ 0 := ne_of_gt hdpos
      have hf0 : 0 ≤ (r - b) / (r - g) := div_nonneg (by linarith [hle.2.2]) hdpos.le
      have hf1 : (r - b) / (r - g) < 1 := (div_lt_one hdpos).mpr (by linarith)
      have hneg : (g - b) / (r - g) < 0 := div_neg_of_neg_of_pos (by linarith) hdpos
      refine ⟨5, (r - b) / (r - g), by norm_num, by norm_num, hf0, hf1, ?_, ?_⟩
      · rw [scaleWrap_of_neg _ _ _ hneg]
        simp
        field_simp
        ring
      · rw [HSVtoRGB_of_sector _ _ _ outc 5 _ hs (by norm_num) (by norm_num) hf0 hf1 rfl]
        simp
        constructor <;> field_simp <;> ring
  · have hr' : r < maxRGB r g b := not_le.mp hr
    by_cases hg : g ≥ maxRGB r g b
    · -- green is the largest channel, red is not
      have hMg : maxRGB r g b = g := le_antisymm hg hle.2.1
      have hrg : r < g := by linarith
      have hrg' : ¬ g ≤ r := not_le.mpr hrg
      by_cases hbr : r ≤ b
      · have hmr : minRGB r g b = r := by
          rcases minRGB_mem r g b with h | h | h <;> linarith
        simp only [hueUnits, hMg, hmr, ge_iff_le, le_refl, if_true, hrg', if_false]
          at hlt hs hM ⊢
        have hdpos : 0 < g - r := by linarith
        have hg0 : g ≠ 0 := ne_of_gt hM
        have hd0 : g - r ≠ 0 := ne_of_gt hdpos
        by_cases hbg : b = g
        · refine ⟨3, 0, by norm_num, by norm_num, le_refl _, by norm_num, ?_, ?_⟩
          · subst hbg
            rw [scaleWrap_of_nonneg _ _ _ (by rw [div_self hd0]; norm_num)]
            simp [div_self hd0]
            norm_num
          · rw [HSVtoRGB_of_sector _ _ _ outc 3 0 hs (by norm_num) (by norm_num) (le_refl _)
              (by norm_num) rfl]
            subst hbg
            simp
            field_simp
        · have hbg' : b < g := lt_of_le_of_ne (by linarith [hle.2.2]) hbg
          have hf0 : 0 ≤ (b - r) / (g - r) := div_nonneg (by linarith) hdpos.le
          have hf1 : (b - r) / (g - r) < 1 := (div_lt_one hdpos).mpr (by linarith)
          refine ⟨2, (b - r) / (g - r), by norm_num, by norm_num, hf0, hf1, ?_, ?_⟩
          · rw [scaleWrap_of_nonneg _ _ _ (by linarith)]
            simp
            ring
          · rw [HSVtoRGB_of_sector _ _ _ outc 2 _ hs (by norm_num) (by norm_num) hf0 hf1 rfl]
            simp
            constructor <;> field_simp <;> ring
      · have hbr' : b < r := not_le.mp hbr
        have hmb : minRGB r g b = b := by
          rcases minRGB_mem r g b with h | h | h <;> linarith
        simp only [hueUnits, hMg, hmb, ge_iff_le, le_refl, if_true, hrg', if_false]
          at hlt hs hM ⊢
        have hdpos : 0 < g - b := by linarith
        have hg0 : g ≠ 0 := ne_of_gt hM
        have hd0 : g - b ≠ 0 := ne_of_gt hdpos
        have hf0 : 0 ≤ (g - r) / (g - b) := div_nonneg (by linarith) hdpos.le
        have hf1 : (g - r) / (g - b) < 1 := (div_lt_one hdpos).mpr (by linarith)
        have hx : (b - r) / (g - b) = (g - r) / (g - b) - 1 := by
          field_simp
        refine ⟨1, (g - r) / (g - b), by norm_num, by norm_num, hf0, hf1, ?_, ?_⟩
        · rw [scaleWrap_of_nonneg _ _ _ (by rw [hx]; linarith)]
          simp
          rw [hx]
          ring
        · rw [HSVtoRGB_of_sector _ _ _ outc 1 _ hs (by norm_num) (by norm_num) hf0 hf1 rfl]
          simp
          constructor <;> field_simp <;> ring
    · -- blue is the only largest channel
      have hg' : g < maxRGB r g b := not_le.mp hg
      have hMb : maxRGB r g b = b := by
        rcases maxRGB_mem r g b with h | h | h
        · linarith
        · linarith
        · exact h
      have hrb : ¬ b ≤ r := by linarith
      have hgb : ¬ b ≤ g := by linarith
      by_cases hgr : g ≤ r
      · have hmg : minRGB r g b = g := by
          rcases minRGB_mem r g b with h | h | h <;> linarith
        simp only [hueUnits, hMb, hmg, ge_iff_le, hrb, hgb, if_false] at hlt hs hM ⊢
        have hdpos : 0 < b - g := by linarith
        have hb0 : b ≠ 0 := ne_of_gt hM
        have hd0 : b - g ≠ 0 := ne_of_gt hdpos
        have hf0 : 0 ≤ (r - g) / (b - g) := div_nonneg (by linarith) hdpos.le
        have hf1 : (r - g) / (b - g) < 1 := (div_lt_one hdpos).mpr (by linarith)
        refine ⟨4, (r - g) / (b - g), by norm_num, by norm_num, hf0, hf1, ?_, ?_⟩
        · rw [scaleWrap_of_nonneg _ _ _ (by linarith)]
          simp
          ring
        · rw [HSVtoRGB_of_sector _ _ _ outc 4 _ hs (by norm_num) (by norm_num) hf0 hf1 rfl]
          simp
          constructor <;> field_simp <;> ring
      · have hgr' : r < g := not_le.mp hgr
        have hmr : minRGB r g b = r := by
          rcases minRGB_mem r g b with h | h | h <;> linarith
        simp only [hueUnits, hMb, hmr, ge_iff_le, hrb, hgb, if_false] at hlt hs hM ⊢
        have hdpos : 0 < b - r := by linarith
        have hb0 : b ≠ 0 := ne_of_gt hM
        have hd0 : b - r ≠ 0 := ne_of_gt hdpos
        have hf0 : 0 ≤ (b - g) / (b - r) := div_nonneg (by linarith) hdpos.le
        have hf1 : (b - g) / (b - r) < 1 := (div_lt_one hdpos).mpr (by linarith)
        have hx : (r - g) / (b - r) = (b - g) / (b - r) - 1 := by
          field_simp
        refine ⟨3, (b - g) / (b - r), by norm_num, by norm_num, hf0, hf1, ?_, ?_⟩
        · rw [scaleWrap_of_nonneg _ _ _ (by rw [hx]; linarith)]
          simp
          rw [hx]
          ring
        · rw [HSVtoRGB_of_sector _ _ _ outc 3 _ hs (by norm_num) (by norm_num) hf0 hf1 rfl]
          simp
          constructor <;> field_simp <;> ring

/-- A non-negative hue splits into the sector `⌊h/60⌋` and a fraction in [0,1). -/
theorem hue_sector_fract (h : ℚ) (hh : 0 ≤ h) :
    0 ≤ ⌊h / 60⌋ ∧ 0 ≤ Int.fract (h / 60) ∧ Int.fract (h / 60) < 1 ∧
    h = 60 * ((⌊h / 60⌋ : ℚ) + Int.fract (h / 60)) := by
  refine ⟨Int.floor_nonneg.mpr (by positivity), Int.fract_nonneg _, Int.fract_lt_one _, ?_⟩
  rw [Int.floor_add_fract]
  ring

/-- Channels that are non-negative and not all equal have a positive largest
channel, strictly above the smallest. -/
theorem maxRGB_pos_of_nonneg (r g b : ℚ) (hr : 0 ≤ r) (hg : 0 ≤ g) (hb : 0 ≤ b)
    (hne : ¬ (r = g ∧ g = b)) :
    0 ≤ minRGB r g b ∧ minRGB r g b < maxRGB r g b := by
  have hm : 0 ≤ minRGB r g b := by
    rcases minRGB_mem r g b with h | h | h <;> rw [h] <;> assumption
  have hd : maxRGB r g b ≠ minRGB r g b := fun h => hne ((maxRGB_eq_minRGB_iff r g b).mp h)
  exact ⟨hm, lt_of_le_of_ne (minRGB_le_maxRGB r g b) (Ne.symm hd)⟩

/-! ## The claims -/

/-- C1. RGB -> HSV -> RGB round trip: for r, g, b in [0,1] that are not all
equal, `RGBtoHSV` completes and `HSVtoRGB` applied to the (h, s, v) it wrote
writes back exactly the original r, g and b. -/
theorem C1_rgb_hsv_rgb_roundtrip (r g b : ℚ) (out : ColorHSV) (outc : Color)
    (hr : 0 ≤ r ∧ r ≤ 1) (hg : 0 ≤ g ∧ g ≤ 1) (hb : 0 ≤ b ∧ b ≤ 1)
    (hne : ¬ (r = g ∧ g = b)) :
    ∃ hsv : ColorHSV, RGBtoHSV r g b out = .done hsv ∧
      HSVtoRGB hsv.h hsv.s hsv.v outc = { outc with r := r, g := g, b := b } := by
  obtain ⟨hm, hlt⟩ := maxRGB_pos_of_nonneg r g b hr.1 hg.1 hb.1 hne
  obtain ⟨k, f, -, -, -, -, hrun, hback⟩ :=
    roundtrip_core r g b out outc (lt_of_le_of_lt hm hlt) (ne_of_gt hlt)
  exact ⟨_, hrun, hback⟩

theorem C1_rgb_hsv_rgb_roundtrip_witness :
    ∃ hsv : ColorHSV, RGBtoHSV 1 (1 / 2) 0 ⟨0, 0, 0⟩ = .done hsv ∧
      HSVtoRGB hsv.h hsv.s hsv.v ⟨0, 0, 0, 1⟩ = ⟨1, 1 / 2, 0, 1⟩ :=
  C1_rgb_hsv_rgb_roundtrip 1 (1 / 2) 0 ⟨0, 0, 0⟩ ⟨0, 0, 0, 1⟩
    (by norm_num) (by norm_num) (by norm_num) (by norm_num)

/-- C2 (evaluation at the failing input). At the hue 360, the upper end of the
documented domain, `HSVtoRGB(360, 1, 1)` writes (1, 0, 1) and `RGBtoHSV` of
that returns the hue 300, not the hue 0 the round trip promises. -/
theorem C2_hue_360_comes_back_as_300 (out : ColorHSV) (outc : Color) :
    HSVtoRGB 360 1 1 outc = { outc with r := 1, g := 0, b := 1 } ∧
    RGBtoHSV (HSVtoRGB 360 1 1 outc).r (HSVtoRGB 360 1 1 outc).g
      (HSVtoRGB 360 1 1 outc).b out = .done ⟨300, 1, 1⟩ := by
  have h : HSVtoRGB 360 1 1 outc = { outc with r := 1, g := 0, b := 1 } := by
    norm_num [HSVtoRGB, truncToInt]
  refine ⟨h, ?_⟩
  rw [h]
  norm_num [RGBtoHSV, maxRGB, minRGB, fmaxf, fminf, fdiv, hueSector, scaleWrap]

/-- C3. Achromatic input: with saturation 0, `HSVtoRGB` writes r = g = b = v
whatever the hue is. -/
theorem C3_achromatic (h v : ℚ) (out : Color) :
    HSVtoRGB h 0 v out = { out with r := v, g := v, b := v } := by
  simp [HSVtoRGB]

/-- C4. Black sentinel: `RGBtoHSV(0,0,0)` writes h = -1, s = 0, v = 0; whenever
the largest channel is not greater than 0 it writes h = -1, s = 0 and
v = max(r,g,b); and whenever the largest channel is greater than 0 the
saturation written is (max - min) / max and the hue is not the sentinel write:
it is either left as it was (the run stops at the hue division) or a computed
hue, which is not negative. -/
theorem C4_black_sentinel (r g b : ℚ) (out : ColorHSV) :
    RGBtoHSV 0 0 0 out = .done ⟨-1, 0, 0⟩ ∧
    (maxRGB r g b ≤ 0 → RGBtoHSV r g b out = .done ⟨-1, 0, maxRGB r g b⟩) ∧
    (0 < maxRGB r g b →
      RGBtoHSV r g b out = .divByZero
          ⟨out.h, (maxRGB r g b - minRGB r g b) / maxRGB r g b, maxRGB r g b⟩ ∨
      ∃ h : ℚ, 0 ≤ h ∧ RGBtoHSV r g b out = .done
          ⟨h, (maxRGB r g b - minRGB r g b) / maxRGB r g b, maxRGB r g b⟩) := by
  refine ⟨?_, RGBtoHSV_of_max_nonpos r g b out, ?_⟩
  · have h := RGBtoHSV_of_max_nonpos 0 0 0 out (by simp [maxRGB, fmaxf])
    simpa [maxRGB, fmaxf] using h
  · intro hM
    by_cases hd : maxRGB r g b = minRGB r g b
    · left
      rw [RGBtoHSV_of_gray r g b out hM hd, hd]
      simp
    · right
      obtain ⟨k, f, hk, -, hf, -, hrun, -⟩ := roundtrip_core r g b out ⟨0, 0, 0, 0⟩ hM hd
      refine ⟨_, ?_, hrun⟩
      have hk' : (0 : ℚ) ≤ (k : ℚ) := by exact_mod_cast hk
      linarith

theorem C4_black_sentinel_witness :
    RGBtoHSV (-1) (-2) (-3) ⟨5, 5, 5⟩ = .done ⟨-1, 0, maxRGB (-1) (-2) (-3)⟩ ∧
    (RGBtoHSV 1 0 0 ⟨5, 5, 5⟩ = .divByZero
          ⟨5, (maxRGB 1 0 0 - minRGB 1 0 0) / maxRGB 1 0 0, maxRGB 1 0 0⟩ ∨
      ∃ h : ℚ, 0 ≤ h ∧ RGBtoHSV 1 0 0 ⟨5, 5, 5⟩ = .done
          ⟨h, (maxRGB 1 0 0 - minRGB 1 0 0) / maxRGB 1 0 0, maxRGB 1 0 0⟩) :=
  ⟨(C4_black_sentinel (-1) (-2) (-3) ⟨5, 5, 5⟩).2.1 (by norm_num [maxRGB, fmaxf]),
   (C4_black_sentinel 1 0 0 ⟨5, 5, 5⟩).2.2 (by norm_num [maxRGB, fmaxf])⟩

/-- C5. Division by zero in `RGBtoHSV`: the run stops at a division by zero
exactly when the largest channel is positive and r = g = b; when the largest
channel is not positive, or the channels are not all equal, the run completes,
and the divisors it meets are non-zero (max > 0 for the saturation,
delta = max - min > 0 for the hue). -/
theorem C5_division_by_zero (r g b : ℚ) (out : ColorHSV) :
    ((∃ st, RGBtoHSV r g b out = .divByZero st) ↔
      (0 < maxRGB r g b ∧ r = g ∧ g = b)) ∧
    (maxRGB r g b ≤ 0 ∨ ¬ (r = g ∧ g = b) →
      (∃ st, RGBtoHSV r g b out = .done st) ∧
      (0 < maxRGB r g b →
        fdiv (maxRGB r g b - minRGB r g b) (maxRGB r g b) ≠ none ∧
        0 < maxRGB r g b - minRGB r g b ∧
        hueSector r g b (maxRGB r g b) (maxRGB r g b - minRGB r g b) ≠ none)) := by
  have key : maxRGB r g b ≤ 0 ∨ ¬ (r = g ∧ g = b) →
      ∃ st, RGBtoHSV r g b out = .done st := by
    rintro (hM | hne)
    · exact ⟨_, RGBtoHSV_of_max_nonpos r g b out hM⟩
    · by_cases hM : 0 < maxRGB r g b
      · exact ⟨_, RGBtoHSV_of_chromatic r g b out hM
          (fun h => hne ((maxRGB_eq_minRGB_iff r g b).mp h))⟩
      · exact ⟨_, RGBtoHSV_of_max_nonpos r g b out (not_lt.mp hM)⟩
  refine ⟨⟨?_, ?_⟩, ?_⟩
  · rintro ⟨st, hst⟩
    by_contra hcon
    have hor : maxRGB r g b ≤ 0 ∨ ¬ (r = g ∧ g = b) := by
      by_cases hM : 0 < maxRGB r g b
      · exact Or.inr (fun h => hcon ⟨hM, h⟩)
      · exact Or.inl (not_lt.mp hM)
    obtain ⟨st', hst'⟩ := key hor
    rw [hst] at hst'
    exact Exec.noConfusion hst'
  · rintro ⟨hM, heq⟩
    exact ⟨_, RGBtoHSV_of_gray r g b out hM ((maxRGB_eq_minRGB_iff r g b).mpr heq)⟩
  · intro hor
    refine ⟨key hor, fun hM => ?_⟩
    have hne : ¬ (r = g ∧ g = b) := by
      rcases hor with h | h
      · exact absurd hM (not_lt.mpr h)
      · exact h
    have hd : maxRGB r g b ≠ minRGB r g b :=
      fun h => hne ((maxRGB_eq_minRGB_iff r g b).mp h)
    have hlt : 0 < maxRGB r g b - minRGB r g b :=
      sub_pos.mpr (lt_of_le_of_ne (minRGB_le_maxRGB r g b) (Ne.symm hd))
    refine ⟨by simp [fdiv_of_ne (ne_of_gt hM)], hlt, ?_⟩
    unfold hueSector
    simp only [fdiv_of_ne (ne_of_gt hlt)]
    split_ifs <;> simp

theorem C5_division_by_zero_witness :
    (∃ st, RGBtoHSV 1 0 0 ⟨5, 5, 5⟩ = .done st) ∧
    fdiv (maxRGB 1 0 0 - minRGB 1 0 0) (maxRGB 1 0 0) ≠ none ∧
    0 < maxRGB 1 0 0 - minRGB 1 0 0 ∧
    hueSector 1 0 0 (maxRGB 1 0 0) (maxRGB 1 0 0 - minRGB 1 0 0) ≠ none :=
  ⟨((C5_division_by_zero 1 0 0 ⟨5, 5, 5⟩).2 (Or.inr (by norm_num))).1,
   ((C5_division_by_zero 1 0 0 ⟨5, 5, 5⟩).2 (Or.inr (by norm_num))).2
     (by norm_num [maxRGB, fmaxf])⟩

/-- C6. Alpha is left untouched: after `HSVtoRGB(h, s, v, &c)` the field `a`
is what it was before the call, on the achromatic path and on each of the six
sector paths. -/
theorem C6_alpha_untouched (h s v : ℚ) (c : Color) :
    (HSVtoRGB h s v c).a = c.a := by
  unfold HSVtoRGB
  simp only []
  split_ifs <;> rfl

/-- C7. HSV -> RGB test vectors: (0,1,1) gives (1,0,0), (120,1,1) gives
(0,1,0), (240,1,1) gives (0,0,1) and (60,1,1) gives (1,1,0). -/
theorem C7_hsv_to_rgb_vectors (out : Color) :
    HSVtoRGB 0 1 1 out = { out with r := 1, g := 0, b := 0 } ∧
    HSVtoRGB 120 1 1 out = { out with r := 0, g := 1, b := 0 } ∧
    HSVtoRGB 240 1 1 out = { out with r := 0, g := 0, b := 1 } ∧
    HSVtoRGB 60 1 1 out = { out with r := 1, g := 1, b := 0 } := by
  refine ⟨?_, ?_, ?_, ?_⟩ <;> norm_num [HSVtoRGB, truncToInt]

/-- C8. RGB -> HSV test vectors: (1,0,0) gives (h,s,v) = (0,1,1) and (0,1,0)
gives (120,1,1). -/
theorem C8_rgb_to_hsv_vectors (out : ColorHSV) :
    RGBtoHSV 1 0 0 out = .done ⟨0, 1, 1⟩ ∧
    RGBtoHSV 0 1 0 out = .done ⟨120, 1, 1⟩ := by
  constructor <;>
    norm_num [RGBtoHSV, maxRGB, minRGB, fmaxf, fminf, fdiv, hueSector, scaleWrap]

/-- C9. `RGBtoHSV` output range: for r, g, b in [0,1] that are not all equal
the run completes with a hue in [0,360), a saturation in (0,1] and the value
v = max(r,g,b) in (0,1]. -/
theorem C9_rgb_to_hsv_range (r g b : ℚ) (out : ColorHSV)
    (hr : 0 ≤ r ∧ r ≤ 1) (hg : 0 ≤ g ∧ g ≤ 1) (hb : 0 ≤ b ∧ b ≤ 1)
    (hne : ¬ (r = g ∧ g = b)) :
    ∃ hsv : ColorHSV, RGBtoHSV r g b out = .done hsv ∧
      0 ≤ hsv.h ∧ hsv.h < 360 ∧ 0 < hsv.s ∧ hsv.s ≤ 1 ∧
      hsv.v = maxRGB r g b ∧ 0 < hsv.v ∧ hsv.v ≤ 1 := by
  obtain ⟨hm, hlt⟩ := maxRGB_pos_of_nonneg r g b hr.1 hg.1 hb.1 hne
  have hM : 0 < maxRGB r g b := lt_of_le_of_lt hm hlt
  have hM1 : maxRGB r g b ≤ 1 := by
    rcases maxRGB_mem r g b with h | h | h <;> rw [h]
    · exact hr.2
    · exact hg.2
    · exact hb.2
  obtain ⟨k, f, hk0, hk5, hf0, hf1, hrun, -⟩ :=
    roundtrip_core r g b out ⟨0, 0, 0, 0⟩ hM (ne_of_gt hlt)
  have hk0' : (0 : ℚ) ≤ (k : ℚ) := by exact_mod_cast hk0
  have hk5' : (k : ℚ) ≤ 5 := by exact_mod_cast hk5
  refine ⟨_, hrun, ?_, ?_, ?_, ?_, rfl, hM, hM1⟩
  · show 0 ≤ 60 * ((k : ℚ) + f)
    linarith
  · show 60 * ((k : ℚ) + f) < 360
    linarith
  · exact div_pos (sub_pos.mpr hlt) hM
  · exact (div_le_one hM).mpr (by linarith)

theorem C9_rgb_to_hsv_range_witness :
    ∃ hsv : ColorHSV, RGBtoHSV 1 (1 / 2) 0 ⟨5, 5, 5⟩ = .done hsv ∧
      0 ≤ hsv.h ∧ hsv.h < 360 ∧ 0 < hsv.s ∧ hsv.s ≤ 1 ∧
      hsv.v = maxRGB 1 (1 / 2) 0 ∧ 0 < hsv.v ∧ hsv.v ≤ 1 :=
  C9_rgb_to_hsv_range 1 (1 / 2) 0 ⟨5, 5, 5⟩
    (by norm_num) (by norm_num) (by norm_num) (by norm_num)

/-- C10 (counterexample). The hue 60 and the hue 60 + 360 are not mapped to
the same colour: at saturation 1 and value 1 the first gives (1,1,0) and the
second, whose sector index 7 takes the default case, gives (1,0,1). -/
theorem C10_counterexample :
    HSVtoRGB (60 + 360) 1 1 ⟨0, 0, 0, 1⟩ ≠ HSVtoRGB 60 1 1 ⟨0, 0, 0, 1⟩ := by
  norm_num [HSVtoRGB, truncToInt]

/-- C10 (amended). The sector index is not reduced modulo 6: every index from 5
up takes the default case. In exact arithmetic, for a hue h > 0 with
(h + 360) / 60 below 2^31 (so that the cast to `int` is in range, that is
h + 360 < 128849018880), `HSVtoRGB(h + 360, s, v)` writes the same (r,g,b) as
`HSVtoRGB(h, s, v)` exactly when s = 0, or v = 0, or h >= 300. -/
theorem C10_amended (h s v : ℚ) (out : Color) (hh : 0 < h)
    (hrange : h + 360 < 128849018880) :
    HSVtoRGB (h + 360) s v out = HSVtoRGB h s v out ↔ (s = 0 ∨ v = 0 ∨ 300 ≤ h) := by
  by_cases hs : s = 0
  · simp [HSVtoRGB, hs]
  obtain ⟨hk0, hf0, hf1, hsplit⟩ := hue_sector_fract h hh.le
  have hk31 : ⌊h / 60⌋ < 2147483642 := by
    rw [Int.floor_lt]
    push_cast
    linarith
  have hsplit6 : h + 360 = 60 * (((⌊h / 60⌋ + 6 : ℤ) : ℚ) + Int.fract (h / 60)) := by
    push_cast
    linarith
  rw [HSVtoRGB_of_sector (h + 360) s v out (⌊h / 60⌋ + 6) _ hs (by omega) (by omega) hf0 hf1
      hsplit6,
    HSVtoRGB_of_sector h s v out ⌊h / 60⌋ _ hs hk0 (by omega) hf0 hf1 hsplit]
  have e0 : ¬ (⌊h / 60⌋ + 6 = 0) := by omega
  have e1 : ¬ (⌊h / 60⌋ + 6 = 1) := by omega
  have e2 : ¬ (⌊h / 60⌋ + 6 = 2) := by omega
  have e3 : ¬ (⌊h / 60⌋ + 6 = 3) := by omega
  have e4 : ¬ (⌊h / 60⌋ + 6 = 4) := by omega
  simp only [if_neg e0, if_neg e1, if_neg e2, if_neg e3, if_neg e4]
  generalize Int.fract (h / 60) = f at hf0 hf1 hsplit
  by_cases h300 : 300 ≤ h
  · have hk5 : 5 ≤ ⌊h / 60⌋ := by
      rw [Int.le_floor]
      push_cast
      linarith
    have d0 : ¬ (⌊h / 60⌋ = 0) := by omega
    have d1 : ¬ (⌊h / 60⌋ = 1) := by omega
    have d2 : ¬ (⌊h / 60⌋ = 2) := by omega
    have d3 : ¬ (⌊h / 60⌋ = 3) := by omega
    have d4 : ¬ (⌊h / 60⌋ = 4) := by omega
    simp only [if_neg d0, if_neg d1, if_neg d2, if_neg d3, if_neg d4]
    simp [h300]
  · have hk4 : ⌊h / 60⌋ < 5 := by
      rw [Int.floor_lt]
      push_cast
      linarith
    have hsf : s * (1 - f) ≠ 0 := mul_ne_zero hs (by linarith)
    simp only [hs, h300, false_or, or_false]
    generalize ⌊h / 60⌋ = k at hk0 hk4
    constructor
    · intro heq
      by_contra hv
      interval_cases k <;> simp [hv] at heq
      · exact hsf (by linarith [heq.2])
      · exact hs heq.2.1
      · exact hs heq.1
      · exact hs heq.1
      · rcases heq.1 with h0 | h1
        · exact hs h0
        · linarith
    · intro hv
      subst hv
      split_ifs <;> simp

theorem C10_amended_witness :
    HSVtoRGB (330 + 360) 1 1 ⟨0, 0, 0, 1⟩ = HSVtoRGB 330 1 1 ⟨0, 0, 0, 1⟩ :=
  (C10_amended 330 1 1 ⟨0, 0, 0, 1⟩ (by norm_num) (by norm_num)).mpr
    (Or.inr (Or.inr (by norm_num)))

/-- The run of `RGBtoHSV` on a colour whose largest channel `M` and smallest
channel `m` are known, with `0 < M` and `m < M`. -/
theorem RGBtoHSV_of_max_min (r g b M m : ℚ) (out : ColorHSV)
    (hM : maxRGB r g b = M) (hm : minRGB r g b = m) (hpos : 0 < M) (hlt : m < M) :
    RGBtoHSV r g b out = .done (scaleWrap
      ⟨if r ≥ M then (g - b) / (M - m)
        else if g ≥ M then 2 + (b - r) / (M - m) else 4 + (r - g) / (M - m),
       (M - m) / M, M⟩) := by
  subst hM hm
  rw [RGBtoHSV_of_chromatic r g b out hpos (ne_of_gt hlt)]
  rfl

theorem maxRGB_eq_of (r g b M : ℚ) (hr : r ≤ M) (hg : g ≤ M) (hb : b ≤ M)
    (hmem : M = r ∨ M = g ∨ M = b) : maxRGB r g b = M := by
  have h := le_maxRGB r g b
  rcases maxRGB_mem r g b with e | e | e <;> rcases hmem with e' | e' | e' <;> linarith

theorem minRGB_eq_of (r g b m : ℚ) (hr : m ≤ r) (hg : m ≤ g) (hb : m ≤ b)
    (hmem : m = r ∨ m = g ∨ m = b) : minRGB r g b = m := by
  have h := minRGB_le r g b
  rcases minRGB_mem r g b with e | e | e <;> rcases hmem with e' | e' | e' <;> linarith

/-- The core of the HSV -> RGB -> HSV round trip, by sector `k` and fraction
`f` of the hue. -/
theorem hsv_roundtrip_core (k : ℤ) (f s v : ℚ) (out : ColorHSV) (outc : Color)
    (hk0 : 0 ≤ k) (hk5 : k ≤ 5) (hf0 : 0 ≤ f) (hf1 : f < 1) (hs : 0 < s) (hv : 0 < v) :
    RGBtoHSV (HSVtoRGB (60 * ((k : ℚ) + f)) s v outc).r
      (HSVtoRGB (60 * ((k : ℚ) + f)) s v outc).g
      (HSVtoRGB (60 * ((k : ℚ) + f)) s v outc).b out = .done ⟨60 * ((k : ℚ) + f), s, v⟩ := by
  have hX : 0 < v * s := mul_pos hv hs
  have hY0 : 0 ≤ v * s * f := mul_nonneg hX.le hf0
  have hY1 : v * s * f < v * s := by nlinarith
  have hv0 : v ≠ 0 := ne_of_gt hv
  have hs0 : s ≠ 0 := ne_of_gt hs
  have hlt : v * (1 - s) < v := by linarith
  have hd : v - v * (1 - s) = v * s := by ring
  have hsat : v * s / v = s := by field_simp
  rw [HSVtoRGB_of_sector _ s v outc k f hs0 hk0 (by omega) hf0 hf1 rfl]
  interval_cases k
  · -- sector 0: (v, t, p)
    simp only [if_true]
    rw [RGBtoHSV_of_max_min _ _ _ v (v * (1 - s)) out
      (maxRGB_eq_of _ _ _ _ le_rfl (by linarith) (by linarith) (Or.inl rfl))
      (minRGB_eq_of _ _ _ _ (by linarith) (by linarith) le_rfl (Or.inr (Or.inr rfl)))
      hv hlt]
    simp only [ge_iff_le, le_refl, if_true, hd, hsat]
    have e : (v * (1 - s * (1 - f)) - v * (1 - s)) / (v * s) = f := by
      field_simp
      ring
    rw [e, scaleWrap_of_nonneg _ _ _ hf0]
    simp
    ring
  · -- sector 1: (q, v, p)
    rw [if_neg (by decide), if_pos rfl]
    dsimp only
    rw [RGBtoHSV_of_max_min _ _ _ v (v * (1 - s)) out
      (maxRGB_eq_of _ _ _ _ (by linarith) le_rfl (by linarith) (Or.inr (Or.inl rfl)))
      (minRGB_eq_of _ _ _ _ (by linarith) (by linarith) le_rfl (Or.inr (Or.inr rfl)))
      hv hlt]
    by_cases hf : f = 0
    · subst hf
      simp only [mul_zero, sub_zero, mul_one, ge_iff_le, le_refl, if_true, hd, hsat,
        div_self (ne_of_gt hX)]
      rw [scaleWrap_of_nonneg _ _ _ (by norm_num)]
      norm_num
    · have hfpos : 0 < f := lt_of_le_of_ne hf0 (Ne.symm hf)
      have hq : ¬ v * (1 - s * f) ≥ v := by
        have : 0 < v * s * f := mul_pos hX hfpos
        intro hge
        linarith
      simp only [if_neg hq, ge_iff_le, le_refl, if_true, hd, hsat]
      have e : 2 + (v * (1 - s) - v * (1 - s * f)) / (v * s) = 1 + f := by
        field_simp
        ring
      rw [e, scaleWrap_of_nonneg _ _ _ (by linarith)]
      simp
      ring
  · -- sector 2: (p, v, t)
    rw [if_neg (by decide), if_neg (by decide), if_pos rfl]
    dsimp only
    rw [RGBtoHSV_of_max_min _ _ _ v (v * (1 - s)) out
      (maxRGB_eq_of _ _ _ _ (by linarith) le_rfl (by linarith) (Or.inr (Or.inl rfl)))
      (minRGB_eq_of _ _ _ _ le_rfl (by linarith) (by linarith) (Or.inl rfl))
      hv hlt]
    have hp : ¬ v * (1 - s) ≥ v := by
      intro hge
      linarith
    simp only [if_neg hp, ge_iff_le, le_refl, if_true, hd, hsat]
    have e : 2 + (v * (1 - s * (1 - f)) - v * (1 - s)) / (v * s) = 2 + f := by
      field_simp
      ring
    rw [e, scaleWrap_of_nonneg _ _ _ (by linarith)]
    simp
    ring
  · -- sector 3: (p, q, v)
    rw [if_neg (by decide), if_neg (by decide), if_neg (by decide), if_pos rfl]
    dsimp only
    rw [RGBtoHSV_of_max_min _ _ _ v (v * (1 - s)) out
      (maxRGB_eq_of _ _ _ _ (by linarith) (by linarith) le_rfl (Or.inr (Or.inr rfl)))
      (minRGB_eq_of _ _ _ _ le_rfl (by linarith) (by linarith) (Or.inl rfl))
      hv hlt]
    have hp : ¬ v * (1 - s) ≥ v := by
      intro hge
      linarith
    by_cases hf : f = 0
    · subst hf
      simp only [if_neg hp, mul_zero, sub_zero, mul_one, ge_iff_le, le_refl, if_true, hd,
        hsat, div_self (ne_of_gt hX)]
      rw [scaleWrap_of_nonneg _ _ _ (by norm_num)]
      norm_num
    · have hfpos : 0 < f := lt_of_le_of_ne hf0 (Ne.symm hf)
      have hq : ¬ v * (1 - s * f) ≥ v := by
        have : 0 < v * s * f := mul_pos hX hfpos
        intro hge
        linarith
      simp only [if_neg hp, if_neg hq, hd, hsat]
      have e : 4 + (v * (1 - s) - v * (1 - s * f)) / (v * s) = 3 + f := by
        field_simp
        ring
      rw [e, scaleWrap_of_nonneg _ _ _ (by linarith)]
      simp
      ring
  · -- sector 4: (t, p, v)
    rw [if_neg (by decide), if_neg (by decide), if_neg (by decide), if_neg (by decide),
      if_pos rfl]
    dsimp only
    rw [RGBtoHSV_of_max_min _ _ _ v (v * (1 - s)) out
      (maxRGB_eq_of _ _ _ _ (by linarith) (by linarith) le_rfl (Or.inr (Or.inr rfl)))
      (minRGB_eq_of _ _ _ _ (by linarith) le_rfl (by linarith) (Or.inr (Or.inl rfl)))
      hv hlt]
    have hp : ¬ v * (1 - s) ≥ v := by
      intro hge
      linarith
    have ht : ¬ v * (1 - s * (1 - f)) ≥ v := by
      intro hge
      linarith
    simp only [if_neg hp, if_neg ht, hd, hsat]
    have e : 4 + (v * (1 - s * (1 - f)) - v * (1 - s)) / (v * s) = 4 + f := by
      field_simp
      ring
    rw [e, scaleWrap_of_nonneg _ _ _ (by linarith)]
    simp
    ring
  · -- sector 5: (v, p, q)
    rw [if_neg (by decide), if_neg (by decide), if_neg (by decide), if_neg (by decide),
      if_neg (by decide)]
    dsimp only
    rw [RGBtoHSV_of_max_min _ _ _ v (v * (1 - s)) out
      (maxRGB_eq_of _ _ _ _ le_rfl (by linarith) (by linarith) (Or.inl rfl))
      (minRGB_eq_of _ _ _ _ (by linarith) le_rfl (by linarith) (Or.inr (Or.inl rfl)))
      hv hlt]
    simp only [ge_iff_le, le_refl, if_true, hd, hsat]
    have e : (v * (1 - s) - v * (1 - s * f)) / (v * s) = f - 1 := by
      field_simp
      ring
    rw [e, scaleWrap_of_neg _ _ _ (by linarith)]
    simp
    ring
/-! ## The claims, continued -/

/-- C11 (amended). Negative hue selects the wrong sector: in exact arithmetic, for
-60 < h < 0, 0 < s <= 1 and v > 0 the cast truncates h/60 to the sector 0,
leaving the negative fraction f = h/60, and `HSVtoRGB` writes
(v, v(1 - s(1 - f)), v(1 - s)); this differs from `HSVtoRGB(h + 360, s, v)` =
(v, v(1 - s), v(1 - s(1 + f))), and the green channel written is strictly below
v(1 - s). -/
theorem C11_amended (h s v : ℚ) (out : Color)
    (hh : -60 < h ∧ h < 0) (hs : 0 < s ∧ s ≤ 1) (hv : 0 < v) :
    truncToInt (h / 60) = 0 ∧ h / 60 - (truncToInt (h / 60) : ℤ) = h / 60 ∧ h / 60 < 0 ∧
    HSVtoRGB h s v out =
      { out with r := v, g := v * (1 - s * (1 - h / 60)), b := v * (1 - s) } ∧
    HSVtoRGB (h + 360) s v out =
      { out with r := v, g := v * (1 - s), b := v * (1 - s * (1 + h / 60)) } ∧
    HSVtoRGB h s v out ≠ HSVtoRGB (h + 360) s v out ∧
    (HSVtoRGB h s v out).g < v * (1 - s) := by
  have hs0 : s ≠ 0 := ne_of_gt hs.1
  have hneg : h / 60 < 0 := by linarith
  have htr : truncToInt (h / 60) = 0 := by
    have hr : -2147483649 < h / 60 ∧ h / 60 < 2147483648 := ⟨by linarith, by linarith⟩
    unfold truncToInt
    rw [if_pos hr, if_neg (not_le.mpr hneg), Int.ceil_eq_iff]
    constructor
    · push_cast
      linarith
    · push_cast
      linarith
  have hlo : HSVtoRGB h s v out =
      { out with r := v, g := v * (1 - s * (1 - h / 60)), b := v * (1 - s) } := by
    unfold HSVtoRGB
    simp [hs0, htr]
  have hf0 : (0 : ℚ) ≤ 1 + h / 60 := by linarith
  have hf1 : 1 + h / 60 < 1 := by linarith
  have hhi : HSVtoRGB (h + 360) s v out =
      { out with r := v, g := v * (1 - s), b := v * (1 - s * (1 + h / 60)) } := by
    rw [HSVtoRGB_of_sector (h + 360) s v out 5 (1 + h / 60) hs0 (by norm_num) (by norm_num)
      hf0 hf1
      (by push_cast; ring)]
    simp
  have hg : v * (1 - s * (1 - h / 60)) < v * (1 - s) := by
    have hvs : 0 < v * s := mul_pos hv hs.1
    nlinarith
  refine ⟨htr, by rw [htr]; simp, hneg, hlo, hhi, ?_, ?_⟩
  · rw [hlo, hhi]
    intro heq
    have hgeq := congrArg Color.g heq
    simp only at hgeq
    linarith
  · rw [hlo]
    exact hg

theorem C11_amended_witness :
    HSVtoRGB (-30) 1 1 ⟨0, 0, 0, 1⟩ ≠ HSVtoRGB (-30 + 360) 1 1 ⟨0, 0, 0, 1⟩ :=
  (C11_amended (-30) 1 1 ⟨0, 0, 0, 1⟩
    (by norm_num) (by norm_num) (by norm_num)).2.2.2.2.2.1

/-- C12. Catalog validity: the catalog holds the 51 named constants, and each
of them has alpha 1 and its r, g and b channels in [0,1]. -/
theorem C12_catalog_valid :
    catalog.length = 51 ∧
    ∀ c ∈ catalog, c.a = 1 ∧ (0 ≤ c.r ∧ c.r ≤ 1) ∧ (0 ≤ c.g ∧ c.g ≤ 1) ∧
      (0 ≤ c.b ∧ c.b ≤ 1) := by
  refine ⟨rfl, ?_⟩
  intro c hc
  simp only [catalog, List.mem_cons, List.mem_singleton, List.not_mem_nil, or_false] at hc
  rcases hc with h | h | h | h | h | h | h | h | h | h | h | h | h | h | h | h | h | h | h | h |
    h | h | h | h | h | h | h | h | h | h | h | h | h | h | h | h | h | h | h | h |
    h | h | h | h | h | h | h | h | h | h | h <;> subst h <;> norm_num [
      COLOR_BLACK, COLOR_WHITE, COLOR_RED, COLOR_GREEN, COLOR_BLUE, COLOR_YELLOW,
      COLOR_MAGENTA, COLOR_CYAN, COLOR_ORANGE, COLOR_PURPLE, COLOR_PINK, COLOR_LIME,
      COLOR_TEAL, COLOR_LAVENDER, COLOR_BROWN, COLOR_BEIGE, COLOR_MAROON, COLOR_MINT,
      COLOR_OLIVE, COLOR_CORAL, COLOR_NAVY, COLOR_TURQUOISE, COLOR_SILVER, COLOR_GOLD,
      COLOR_SKYBLUE, COLOR_VIOLET, COLOR_INDIGO, COLOR_AQUAMARINE, COLOR_TAN,
      COLOR_LINEN, COLOR_IVORY, COLOR_SNOW, COLOR_SEASHELL, COLOR_LAVENDERBLUSH,
      COLOR_FLORALWHITE, COLOR_ALICEBLUE, COLOR_HONEYDEW, COLOR_LIGHTCYAN,
      COLOR_LIGHTYELLOW, COLOR_LIGHTGOLDENRODYELLOW, COLOR_PAPAYAWHIP, COLOR_MISTYROSE,
      COLOR_LEMONCHIFFON, COLOR_LIGHTGOLDENROD, COLOR_LIGHTCORAL, COLOR_SALMON,
      COLOR_DARKSALMON, COLOR_LIGHTSALMON, COLOR_CRIMSON, COLOR_FIREBRICK, COLOR_DARKRED]

/-- C13. Catalog aliasing: `COLOR_TEAL` and `COLOR_TURQUOISE` are the same
(r,g,b,a), and so are `COLOR_LIGHTGOLDENROD` and `COLOR_LIGHTGOLDENRODYELLOW`. -/
theorem C13_catalog_aliases :
    COLOR_TEAL = COLOR_TURQUOISE ∧ COLOR_LIGHTGOLDENROD = COLOR_LIGHTGOLDENRODYELLOW :=
  ⟨rfl, rfl⟩

/-- C14. HSV -> RGB -> HSV round trip on the half-open hue range: for
0 <= h < 360, 0 < s <= 1 and v > 0, `RGBtoHSV` applied to what
`HSVtoRGB(h, s, v)` wrote completes with exactly (h, s, v), the sector
boundaries included. -/
theorem C14_hsv_rgb_hsv_roundtrip (h s v : ℚ) (out : ColorHSV) (outc : Color)
    (hh : 0 ≤ h ∧ h < 360) (hs : 0 < s ∧ s ≤ 1) (hv : 0 < v) :
    RGBtoHSV (HSVtoRGB h s v outc).r (HSVtoRGB h s v outc).g (HSVtoRGB h s v outc).b out
      = .done ⟨h, s, v⟩ := by
  obtain ⟨hk0, hf0, hf1, hsplit⟩ := hue_sector_fract h hh.1
  have hk5 : ⌊h / 60⌋ ≤ 5 := by
    have : ⌊h / 60⌋ < 6 := by
      rw [Int.floor_lt]
      push_cast
      linarith
    omega
  have key := hsv_roundtrip_core ⌊h / 60⌋ (Int.fract (h / 60)) s v out outc hk0 hk5 hf0 hf1
    hs.1 hv
  rw [← hsplit] at key
  exact key

theorem C14_hsv_rgb_hsv_roundtrip_witness :
    RGBtoHSV (HSVtoRGB 120 (1 / 2) 2 ⟨0, 0, 0, 1⟩).r (HSVtoRGB 120 (1 / 2) 2 ⟨0, 0, 0, 1⟩).g
      (HSVtoRGB 120 (1 / 2) 2 ⟨0, 0, 0, 1⟩).b ⟨5, 5, 5⟩ = .done ⟨120, 1 / 2, 2⟩ :=
  C14_hsv_rgb_hsv_roundtrip 120 (1 / 2) 2 ⟨5, 5, 5⟩ ⟨0, 0, 0, 1⟩
    (by norm_num) (by norm_num) (by norm_num)



/-! ## Scaling, bounds and continuity -/

theorem maxRGB_scale (k r g b : ℚ) (hk : 0 < k) :
    maxRGB (k * r) (k * g) (k * b) = k * maxRGB r g b := by
  have h := le_maxRGB r g b
  apply maxRGB_eq_of
  · exact mul_le_mul_of_nonneg_left h.1 hk.le
  · exact mul_le_mul_of_nonneg_left h.2.1 hk.le
  · exact mul_le_mul_of_nonneg_left h.2.2 hk.le
  · rcases maxRGB_mem r g b with e | e | e <;> rw [e] <;> simp

theorem minRGB_scale (k r g b : ℚ) (hk : 0 < k) :
    minRGB (k * r) (k * g) (k * b) = k * minRGB r g b := by
  have h := minRGB_le r g b
  apply minRGB_eq_of
  · exact mul_le_mul_of_nonneg_left h.1 hk.le
  · exact mul_le_mul_of_nonneg_left h.2.1 hk.le
  · exact mul_le_mul_of_nonneg_left h.2.2 hk.le
  · rcases minRGB_mem r g b with e | e | e <;> rw [e] <;> simp

/-- The clamp of a value to [0,1] moves by no more than the value does. -/
theorem clamp_lipschitz (a b : ℚ) : |max 0 (min 1 a) - max 0 (min 1 b)| ≤ |a - b| := by
  have h1 := abs_max_sub_max_le_max 0 (min 1 a) 0 (min 1 b)
  have h2 := abs_min_sub_min_le_max 1 a 1 b
  simp only [sub_self, abs_zero] at h1 h2
  have h3 : max 0 |a - b| = |a - b| := max_eq_right (abs_nonneg _)
  have h4 : max 0 |min 1 a - min 1 b| = |min 1 a - min 1 b| := max_eq_right (abs_nonneg _)
  rw [h4] at h1
  rw [h3] at h2
  exact le_trans h1 h2

/-- The clamp behind the red channel, sector by sector. -/
theorem clamp_red (x : ℚ) :
    (x ≤ 1 ∧ 0 ≤ x → max 0 (min 1 (min (x - 1) (5 - x))) = 0) ∧
    (1 ≤ x ∧ x ≤ 2 → max 0 (min 1 (min (x - 1) (5 - x))) = x - 1) ∧
    (2 ≤ x ∧ x ≤ 4 → max 0 (min 1 (min (x - 1) (5 - x))) = 1) ∧
    (4 ≤ x ∧ x ≤ 5 → max 0 (min 1 (min (x - 1) (5 - x))) = 5 - x) := by
  refine ⟨?_, ?_, ?_, ?_⟩ <;> intro hx <;> simp only [max_def, min_def] <;>
    split_ifs <;> linarith [hx.1, hx.2]

theorem clamp_red_last (x : ℚ) (hx : 5 ≤ x) : max 0 (min 1 (min (x - 1) (5 - x))) = 0 := by
  simp only [max_def, min_def]
  split_ifs <;> linarith

/-- The clamp behind the green channel, sector by sector. -/
theorem clamp_green (x : ℚ) :
    (0 ≤ x ∧ x ≤ 1 → max 0 (min 1 (max (1 - x) (x - 3))) = 1 - x) ∧
    (1 ≤ x ∧ x ≤ 3 → max 0 (min 1 (max (1 - x) (x - 3))) = 0) ∧
    (3 ≤ x ∧ x ≤ 4 → max 0 (min 1 (max (1 - x) (x - 3))) = x - 3) ∧
    (4 ≤ x ∧ 0 ≤ x → max 0 (min 1 (max (1 - x) (x - 3))) = 1) := by
  refine ⟨?_, ?_, ?_, ?_⟩ <;> intro hx <;> simp only [max_def, min_def] <;>
    split_ifs <;> linarith [hx.1, hx.2]

/-- The clamp behind the blue channel, sector by sector. -/
theorem clamp_blue (x : ℚ) :
    (x ≤ 2 ∧ x ≤ 2 → max 0 (min 1 (max (3 - x) (x - 5))) = 1) ∧
    (2 ≤ x ∧ x ≤ 3 → max 0 (min 1 (max (3 - x) (x - 5))) = 3 - x) ∧
    (3 ≤ x ∧ x ≤ 5 → max 0 (min 1 (max (3 - x) (x - 5))) = 0) ∧
    (5 ≤ x ∧ x ≤ 6 → max 0 (min 1 (max (3 - x) (x - 5))) = x - 5) := by
  refine ⟨?_, ?_, ?_, ?_⟩ <;> intro hx <;> simp only [max_def, min_def] <;>
    split_ifs <;> linarith [hx.1, hx.2]

/-- On the hue range [0,360) each channel written by `HSVtoRGB` is
`v * (1 - s * c)` for a clamp `c` of a piecewise linear function of `h / 60`. -/
theorem HSVtoRGB_clamp_form (h s v : ℚ) (out : Color) (hh0 : 0 ≤ h) (hh1 : h < 360) :
    HSVtoRGB h s v out = { out with
      r := v * (1 - s * max 0 (min 1 (min (h / 60 - 1) (5 - h / 60)))),
      g := v * (1 - s * max 0 (min 1 (max (1 - h / 60) (h / 60 - 3)))),
      b := v * (1 - s * max 0 (min 1 (max (3 - h / 60) (h / 60 - 5)))) } := by
  by_cases hs : s = 0
  · subst hs
    simp [HSVtoRGB]
  obtain ⟨hk0, hf0, hf1, hsplit⟩ := hue_sector_fract h hh0
  have hk5 : ⌊h / 60⌋ < 6 := by
    rw [Int.floor_lt]
    push_cast
    linarith
  rw [HSVtoRGB_of_sector h s v out ⌊h / 60⌋ _ hs hk0 (by omega) hf0 hf1 hsplit]
  have hx : h / 60 = (⌊h / 60⌋ : ℚ) + Int.fract (h / 60) := (Int.floor_add_fract _).symm
  generalize Int.fract (h / 60) = f at hf0 hf1 hsplit hx
  generalize h / 60 = x at hx hk0 hk5
  generalize ⌊x⌋ = k at hx hk0 hk5
  interval_cases k
  · have hx' : x = 0 + f := by rw [hx]; norm_num
    rw [(clamp_red x).1 ⟨by linarith, by linarith⟩,
      (clamp_green x).1 ⟨by linarith, by linarith⟩,
      (clamp_blue x).1 ⟨by linarith, by linarith⟩, hx']
    simp
  · have hx' : x = 1 + f := by rw [hx]; norm_num
    rw [(clamp_red x).2.1 ⟨by linarith, by linarith⟩,
      (clamp_green x).2.1 ⟨by linarith, by linarith⟩,
      (clamp_blue x).1 ⟨by linarith, by linarith⟩, hx']
    simp
  · have hx' : x = 2 + f := by rw [hx]; norm_num
    rw [(clamp_red x).2.2.1 ⟨by linarith, by linarith⟩,
      (clamp_green x).2.1 ⟨by linarith, by linarith⟩,
      (clamp_blue x).2.1 ⟨by linarith, by linarith⟩, hx',
      show (3 : ℚ) - (2 + f) = 1 - f by ring]
    simp
  · have hx' : x = 3 + f := by rw [hx]; norm_num
    rw [(clamp_red x).2.2.1 ⟨by linarith, by linarith⟩,
      (clamp_green x).2.2.1 ⟨by linarith, by linarith⟩,
      (clamp_blue x).2.2.1 ⟨by linarith, by linarith⟩, hx']
    simp
  · have hx' : x = 4 + f := by rw [hx]; norm_num
    rw [(clamp_red x).2.2.2 ⟨by linarith, by linarith⟩,
      (clamp_green x).2.2.2 ⟨by linarith, by linarith⟩,
      (clamp_blue x).2.2.1 ⟨by linarith, by linarith⟩, hx',
      show (5 : ℚ) - (4 + f) = 1 - f by ring]
    simp
  · have hx' : x = 5 + f := by rw [hx]; norm_num
    rw [clamp_red_last x (by linarith),
      (clamp_green x).2.2.2 ⟨by linarith, by linarith⟩,
      (clamp_blue x).2.2.2 ⟨by linarith, by linarith⟩, hx']
    simp

/-- C15 (counterexample). At h = 60 * 2^31 = 128849018880, s = 1, v = 1 the value
h / 60 = 2^31 is out of the range of `int`; with the cast giving `INT_MIN` the
fraction is f = 2^32 and the default case writes (1, 0, 1 - 2^32): the blue
channel is negative and the smallest channel is not v(1 - s) = 0. -/
theorem C15_counterexample :
    HSVtoRGB 128849018880 1 1 ⟨0, 0, 0, 1⟩ = ⟨1, 0, -4294967295, 1⟩ ∧
    minRGB (HSVtoRGB 128849018880 1 1 ⟨0, 0, 0, 1⟩).r (HSVtoRGB 128849018880 1 1 ⟨0, 0, 0, 1⟩).g
      (HSVtoRGB 128849018880 1 1 ⟨0, 0, 0, 1⟩).b ≠ 1 * (1 - 1) ∧
    ¬ (0 ≤ (HSVtoRGB 128849018880 1 1 ⟨0, 0, 0, 1⟩).b) := by
  have h : HSVtoRGB 128849018880 1 1 ⟨0, 0, 0, 1⟩ = ⟨1, 0, -4294967295, 1⟩ := by
    norm_num [HSVtoRGB, truncToInt]
  refine ⟨h, ?_, ?_⟩
  · rw [h]
    norm_num [minRGB, fminf]
  · rw [h]
    norm_num

/-- C15 (amended). `HSVtoRGB` output bounds: in exact arithmetic, for h >= 0 with
h / 60 below 2^31 (so that the cast to `int` is in range, that is
h < 128849018880), s in [0,1] and v >= 0, the largest channel written is v and
the smallest is v(1 - s); hence for v <= 1 the three channels lie in [0,1]. -/
theorem C15_amended (h s v : ℚ) (out : Color)
    (hh : 0 ≤ h) (hrange : h < 128849018880) (hs : 0 ≤ s ∧ s ≤ 1) (hv : 0 ≤ v) :
    maxRGB (HSVtoRGB h s v out).r (HSVtoRGB h s v out).g (HSVtoRGB h s v out).b = v ∧
    minRGB (HSVtoRGB h s v out).r (HSVtoRGB h s v out).g (HSVtoRGB h s v out).b
      = v * (1 - s) ∧
    (v ≤ 1 →
      (0 ≤ (HSVtoRGB h s v out).r ∧ (HSVtoRGB h s v out).r ≤ 1) ∧
      (0 ≤ (HSVtoRGB h s v out).g ∧ (HSVtoRGB h s v out).g ≤ 1) ∧
      (0 ≤ (HSVtoRGB h s v out).b ∧ (HSVtoRGB h s v out).b ≤ 1)) := by
  have hmm : maxRGB (HSVtoRGB h s v out).r (HSVtoRGB h s v out).g (HSVtoRGB h s v out).b = v ∧
      minRGB (HSVtoRGB h s v out).r (HSVtoRGB h s v out).g (HSVtoRGB h s v out).b
        = v * (1 - s) := by
    by_cases hs0 : s = 0
    · subst hs0
      simp [HSVtoRGB, maxRGB, minRGB, fmaxf, fminf]
    obtain ⟨hk0, hf0, hf1, hsplit⟩ := hue_sector_fract h hh
    have hk31 : ⌊h / 60⌋ < 2147483648 := by
      rw [Int.floor_lt]
      push_cast
      linarith
    rw [HSVtoRGB_of_sector h s v out ⌊h / 60⌋ _ hs0 hk0 hk31 hf0 hf1 hsplit]
    generalize Int.fract (h / 60) = f at hf0 hf1 hsplit
    have hX : 0 ≤ v * s := mul_nonneg hv hs.1
    have hY0 : 0 ≤ v * s * f := mul_nonneg hX hf0
    have hY1 : v * s * f ≤ v * s := by nlinarith
    split_ifs <;> dsimp only <;> constructor
    all_goals first
      | (apply maxRGB_eq_of <;> first | linarith | simp)
      | (apply minRGB_eq_of <;> first | linarith | simp)
  refine ⟨hmm.1, hmm.2, fun hv1 => ?_⟩
  have hle := le_maxRGB (HSVtoRGB h s v out).r (HSVtoRGB h s v out).g (HSVtoRGB h s v out).b
  have hge := minRGB_le (HSVtoRGB h s v out).r (HSVtoRGB h s v out).g (HSVtoRGB h s v out).b
  rw [hmm.1] at hle
  rw [hmm.2] at hge
  have hp : 0 ≤ v * (1 - s) := mul_nonneg hv (by linarith)
  refine ⟨⟨?_, ?_⟩, ⟨?_, ?_⟩, ⟨?_, ?_⟩⟩ <;> linarith [hle.1, hle.2.1, hle.2.2, hge.1, hge.2.1, hge.2.2]

theorem C15_amended_witness :
    (0 ≤ (HSVtoRGB 400 (1 / 2) 1 ⟨0, 0, 0, 1⟩).r ∧ (HSVtoRGB 400 (1 / 2) 1 ⟨0, 0, 0, 1⟩).r ≤ 1) ∧
    (0 ≤ (HSVtoRGB 400 (1 / 2) 1 ⟨0, 0, 0, 1⟩).g ∧ (HSVtoRGB 400 (1 / 2) 1 ⟨0, 0, 0, 1⟩).g ≤ 1) ∧
    (0 ≤ (HSVtoRGB 400 (1 / 2) 1 ⟨0, 0, 0, 1⟩).b ∧ (HSVtoRGB 400 (1 / 2) 1 ⟨0, 0, 0, 1⟩).b ≤ 1) :=
  (C15_amended 400 (1 / 2) 1 ⟨0, 0, 0, 1⟩
    (by norm_num) (by norm_num) (by norm_num) (by norm_num)).2.2 (by norm_num)



theorem clamp_red_lipschitz (x y : ℚ) :
    |max 0 (min 1 (min (x - 1) (5 - x))) - max 0 (min 1 (min (y - 1) (5 - y)))|
      ≤ |x - y| := by
  refine le_trans (clamp_lipschitz _ _) (le_trans (abs_min_sub_min_le_max _ _ _ _) ?_)
  have e1 : x - 1 - (y - 1) = x - y := by ring
  have e2 : 5 - x - (5 - y) = -(x - y) := by ring
  rw [e1, e2, abs_neg, max_self]

theorem clamp_green_lipschitz (x y : ℚ) :
    |max 0 (min 1 (max (1 - x) (x - 3))) - max 0 (min 1 (max (1 - y) (y - 3)))|
      ≤ |x - y| := by
  refine le_trans (clamp_lipschitz _ _) (le_trans (abs_max_sub_max_le_max _ _ _ _) ?_)
  have e1 : 1 - x - (1 - y) = -(x - y) := by ring
  have e2 : x - 3 - (y - 3) = x - y := by ring
  rw [e1, e2, abs_neg, max_self]

theorem clamp_blue_lipschitz (x y : ℚ) :
    |max 0 (min 1 (max (3 - x) (x - 5))) - max 0 (min 1 (max (3 - y) (y - 5)))|
      ≤ |x - y| := by
  refine le_trans (clamp_lipschitz _ _) (le_trans (abs_max_sub_max_le_max _ _ _ _) ?_)
  have e1 : 3 - x - (3 - y) = -(x - y) := by ring
  have e2 : x - 5 - (y - 5) = x - y := by ring
  rw [e1, e2, abs_neg, max_self]

/-- Two channels `v * (1 - s * c)` are no further apart than `v * s` times the
distance of their clamps. -/
theorem channel_lipschitz (v s c d h k : ℚ) (hvs : 0 ≤ v * s)
    (hcd : |c - d| ≤ |h / 60 - k / 60|) :
    |v * (1 - s * c) - v * (1 - s * d)| ≤ v * s * |h - k| / 60 := by
  have e : v * (1 - s * c) - v * (1 - s * d) = v * s * (d - c) := by ring
  have e60 : |h / 60 - k / 60| = |h - k| / 60 := by
    rw [← sub_div, abs_div]
    norm_num
  rw [e, abs_mul, abs_of_nonneg hvs, abs_sub_comm d c, mul_div_assoc]
  rw [e60] at hcd
  exact mul_le_mul_of_nonneg_left hcd hvs

/-- C16. No jump between hue sectors: for s in [0,1], v >= 0 and h1, h2 in
[0,360), each channel written by `HSVtoRGB(h1, s, v)` is within
v * s * |h1 - h2| / 60 of the same channel written by `HSVtoRGB(h2, s, v)`; and
at each boundary 60, 120, 180, 240, 300 the routine writes what the formula of
the sector below gives at the fraction f = 1. -/
theorem C16_no_jump_between_sectors (h1 h2 s v : ℚ) (out1 out2 : Color)
    (hs : 0 ≤ s ∧ s ≤ 1) (hv : 0 ≤ v)
    (hh1 : 0 ≤ h1 ∧ h1 < 360) (hh2 : 0 ≤ h2 ∧ h2 < 360) :
    (|(HSVtoRGB h1 s v out1).r - (HSVtoRGB h2 s v out2).r| ≤ v * s * |h1 - h2| / 60 ∧
     |(HSVtoRGB h1 s v out1).g - (HSVtoRGB h2 s v out2).g| ≤ v * s * |h1 - h2| / 60 ∧
     |(HSVtoRGB h1 s v out1).b - (HSVtoRGB h2 s v out2).b| ≤ v * s * |h1 - h2| / 60) ∧
    (HSVtoRGB 60 s v out1 =
        { out1 with r := v, g := v * (1 - s * (1 - 1)), b := v * (1 - s) } ∧
     HSVtoRGB 120 s v out1 =
        { out1 with r := v * (1 - s * 1), g := v, b := v * (1 - s) } ∧
     HSVtoRGB 180 s v out1 =
        { out1 with r := v * (1 - s), g := v, b := v * (1 - s * (1 - 1)) } ∧
     HSVtoRGB 240 s v out1 =
        { out1 with r := v * (1 - s), g := v * (1 - s * 1), b := v } ∧
     HSVtoRGB 300 s v out1 =
        { out1 with r := v * (1 - s * (1 - 1)), g := v * (1 - s), b := v }) := by
  have hvs : 0 ≤ v * s := mul_nonneg hv hs.1
  constructor
  · rw [HSVtoRGB_clamp_form h1 s v out1 hh1.1 hh1.2, HSVtoRGB_clamp_form h2 s v out2 hh2.1 hh2.2]
    exact ⟨channel_lipschitz _ _ _ _ _ _ hvs (clamp_red_lipschitz _ _),
      channel_lipschitz _ _ _ _ _ _ hvs (clamp_green_lipschitz _ _),
      channel_lipschitz _ _ _ _ _ _ hvs (clamp_blue_lipschitz _ _)⟩
  · by_cases hs0 : s = 0
    · subst hs0
      simp [HSVtoRGB]
    · refine ⟨?_, ?_, ?_, ?_, ?_⟩ <;> norm_num [HSVtoRGB, truncToInt, hs0]

theorem C16_no_jump_between_sectors_witness :
    |(HSVtoRGB 50 1 1 ⟨0, 0, 0, 1⟩).g - (HSVtoRGB 70 1 1 ⟨0, 0, 0, 1⟩).g|
      ≤ 1 * 1 * |(50 : ℚ) - 70| / 60 :=
  (C16_no_jump_between_sectors 50 70 1 1 ⟨0, 0, 0, 1⟩ ⟨0, 0, 0, 1⟩
    (by norm_num) (by norm_num) (by norm_num) (by norm_num)).1.2.1

/-- C17. Non-black gray input: for c > 0, `RGBtoHSV(c, c, c)` writes the value
v = c and the saturation s = 0 and does not take the sentinel branch: the run
stops at the hue division with the hue left as it was, so it is not the
completed run that writes h = -1; the same for white (1,1,1), with s = 0 and
v = 1. -/
theorem C17_gray_input (c : ℚ) (out : ColorHSV) (hc : 0 < c) :
    RGBtoHSV c c c out = .divByZero ⟨out.h, 0, c⟩ ∧
    (RGBtoHSV c c c out).state.s = 0 ∧ (RGBtoHSV c c c out).state.v = c ∧
    (RGBtoHSV c c c out).state.h = out.h ∧
    RGBtoHSV c c c out ≠ .done ⟨-1, 0, c⟩ ∧
    (RGBtoHSV 1 1 1 out).state.s = 0 ∧ (RGBtoHSV 1 1 1 out).state.v = 1 := by
  have hmax : ∀ x : ℚ, maxRGB x x x = x := fun x => by simp [maxRGB, fmaxf]
  have hmin : ∀ x : ℚ, minRGB x x x = x := fun x => by simp [minRGB, fminf]
  have hrun : ∀ x : ℚ, 0 < x → RGBtoHSV x x x out = .divByZero ⟨out.h, 0, x⟩ := by
    intro x hx
    have h := RGBtoHSV_of_gray x x x out (by rw [hmax]; exact hx) (by rw [hmax, hmin])
    rw [hmax] at h
    exact h
  refine ⟨hrun c hc, ?_, ?_, ?_, ?_, ?_, ?_⟩
  · rw [hrun c hc]; rfl
  · rw [hrun c hc]; rfl
  · rw [hrun c hc]; rfl
  · rw [hrun c hc]
    intro h
    exact Exec.noConfusion h
  · rw [hrun 1 one_pos]; rfl
  · rw [hrun 1 one_pos]; rfl

theorem C17_gray_input_witness :
    RGBtoHSV (1 / 2) (1 / 2) (1 / 2) ⟨7, 7, 7⟩ = .divByZero ⟨7, 0, 1 / 2⟩ :=
  (C17_gray_input (1 / 2) ⟨7, 7, 7⟩ (by norm_num)).1

/-- C18. Brightness scaling keeps hue and saturation: for k > 0 and (r,g,b)
with max(r,g,b) > 0 and channels not all equal, `RGBtoHSV(r, g, b)` completes
with some (h, s, v) and `RGBtoHSV(k*r, k*g, k*b)` completes with (h, s, k*v). -/
theorem C18_brightness_scaling (k r g b : ℚ) (out : ColorHSV) (hk : 0 < k)
    (hM : 0 < maxRGB r g b) (hne : ¬ (r = g ∧ g = b)) :
    ∃ hsv : ColorHSV, RGBtoHSV r g b out = .done hsv ∧
      RGBtoHSV (k * r) (k * g) (k * b) out = .done ⟨hsv.h, hsv.s, k * hsv.v⟩ := by
  have hd : maxRGB r g b ≠ minRGB r g b := fun h => hne ((maxRGB_eq_minRGB_iff r g b).mp h)
  have hlt : minRGB r g b < maxRGB r g b :=
    lt_of_le_of_ne (minRGB_le_maxRGB r g b) (Ne.symm hd)
  have hk0 : k ≠ 0 := ne_of_gt hk
  have hM0 : maxRGB r g b ≠ 0 := ne_of_gt hM
  have hd0 : maxRGB r g b - minRGB r g b ≠ 0 := sub_ne_zero.mpr hd
  rw [RGBtoHSV_of_max_min r g b _ _ out rfl rfl hM hlt,
    RGBtoHSV_of_max_min (k * r) (k * g) (k * b) _ _ out (maxRGB_scale k r g b hk)
      (minRGB_scale k r g b hk) (mul_pos hk hM) (mul_lt_mul_of_pos_left hlt hk)]
  refine ⟨_, rfl, ?_⟩
  generalize maxRGB r g b = M at *
  generalize minRGB r g b = m at *
  have c1 : (k * r ≥ k * M) ↔ (r ≥ M) := by
    simp only [ge_iff_le]
    exact mul_le_mul_left hk
  have c2 : (k * g ≥ k * M) ↔ (g ≥ M) := by
    simp only [ge_iff_le]
    exact mul_le_mul_left hk
  have e1 : (k * g - k * b) / (k * M - k * m) = (g - b) / (M - m) := by
    rw [← mul_sub, ← mul_sub, mul_div_mul_left _ _ hk0]
  have e2 : (k * b - k * r) / (k * M - k * m) = (b - r) / (M - m) := by
    rw [← mul_sub, ← mul_sub, mul_div_mul_left _ _ hk0]
  have e3 : (k * r - k * g) / (k * M - k * m) = (r - g) / (M - m) := by
    rw [← mul_sub, ← mul_sub, mul_div_mul_left _ _ hk0]
  have e4 : (k * M - k * m) / (k * M) = (M - m) / M := by
    rw [← mul_sub, mul_div_mul_left _ _ hk0]
  simp only [c1, c2, e1, e2, e3, e4]
  simp only [scaleWrap]
  split_ifs <;> rfl

theorem C18_brightness_scaling_witness :
    ∃ hsv : ColorHSV, RGBtoHSV 1 (1 / 2) 0 ⟨7, 7, 7⟩ = .done hsv ∧
      RGBtoHSV (3 * 1) (3 * (1 / 2)) (3 * 0) ⟨7, 7, 7⟩ = .done ⟨hsv.h, hsv.s, 3 * hsv.v⟩ :=
  C18_brightness_scaling 3 1 (1 / 2) 0 ⟨7, 7, 7⟩ (by norm_num)
    (by norm_num [maxRGB, fmaxf]) (by norm_num)

/-! ## Evaluating the binary32 rounding -/

/-- The exponent of a value in a known binade. -/
theorem expo32_eq (x : ℚ) (e : ℤ) (he : -126 ≤ e) (hlo : (2 : ℚ) ^ e ≤ |x|)
    (hhi : |x| < (2 : ℚ) ^ (e + 1)) : expo32 x = e := by
  have hpos : 0 < |x| := lt_of_lt_of_le (zpow_pos (by norm_num) e) hlo
  have h1 : e ≤ Int.log 2 |x| := by
    rw [← Int.zpow_le_iff_le_log (by norm_num) hpos]
    exact_mod_cast hlo
  have h2 : Int.log 2 |x| < e + 1 := by
    rw [← Int.lt_zpow_iff_log_lt (by norm_num) hpos]
    exact_mod_cast hhi
  unfold expo32
  rw [max_eq_left (by omega)]
  omega

/-- Away from a tie the rounding is the integer within a half. -/
theorem roundTiesEven_of (y : ℚ) (n : ℤ) (h : |y - n| < 1 / 2) : roundTiesEven y = n := by
  rw [abs_lt] at h
  unfold roundTiesEven
  by_cases hn : (n : ℚ) ≤ y
  · have hf : ⌊y⌋ = n := by
      rw [Int.floor_eq_iff]
      constructor <;> linarith [h.1, h.2]
    simp only [hf]
    rw [if_pos (by linarith [h.2])]
  · have hf : ⌊y⌋ = n - 1 := by
      rw [Int.floor_eq_iff]
      push_cast
      constructor <;> linarith [h.1, h.2]
    simp only [hf]
    push_cast
    rw [if_neg (by linarith [h.1]), if_pos (by linarith [h.1])]
    ring

/-- The binary32 rounding of a value in the binade of exponent `e` that lies
within half a unit in the last place of `n * 2 ^ (e - 23)`. -/
theorem fl32_eq_of (x : ℚ) (e n : ℤ) (he : -126 ≤ e) (hlo : (2 : ℚ) ^ e ≤ |x|)
    (hhi : |x| < (2 : ℚ) ^ (e + 1)) (hn : |x / 2 ^ (e - 23) - n| < 1 / 2) :
    fl32 x = n * 2 ^ (e - 23) := by
  unfold fl32
  rw [expo32_eq x e he hlo hhi, roundTiesEven_of _ n hn]

theorem fl32_zero : fl32 0 = 0 := by
  simp [fl32, roundTiesEven]


/-- Values of the binary32 rounding met at h = -30 and h = 330 with s = 2^-30. -/
theorem fl32_neg_half : fl32 (-(1 / 2)) = -(1 / 2) := by
  rw [fl32_eq_of _ (-1) (-8388608) (by norm_num) (by norm_num [abs_of_neg])
    (by norm_num [abs_of_neg]) (by norm_num [abs_lt])]
  norm_num

theorem fl32_one_sub_2p30 : fl32 (1073741823 / 1073741824) = 1 := by
  rw [fl32_eq_of _ (-1) 16777216 (by norm_num) (by norm_num [abs_of_pos])
    (by norm_num [abs_of_pos]) (by norm_num [abs_lt])]
  norm_num

theorem fl32_one : fl32 1 = 1 := by
  rw [fl32_eq_of _ 0 8388608 (by norm_num) (by norm_num)
    (by norm_num) (by norm_num [abs_lt])]
  norm_num


theorem fl32_three_halves : fl32 (3 / 2) = 3 / 2 := by
  rw [fl32_eq_of _ 0 12582912 (by norm_num) (by norm_num [abs_of_pos])
    (by norm_num [abs_of_pos]) (by norm_num [abs_lt])]
  norm_num

theorem fl32_three_2p31 : fl32 (3 / 2147483648) = 3 / 2147483648 := by
  rw [fl32_eq_of _ (-30) 12582912 (by norm_num) (by norm_num [abs_of_pos])
    (by norm_num [abs_of_pos]) (by norm_num [abs_lt])]
  norm_num

theorem fl32_one_sub_three_2p31 : fl32 (2147483645 / 2147483648) = 1 := by
  rw [fl32_eq_of _ (-1) 16777216 (by norm_num) (by norm_num [abs_of_pos])
    (by norm_num [abs_of_pos]) (by norm_num [abs_lt])]
  norm_num

theorem fl32_eleven_halves : fl32 (11 / 2) = 11 / 2 := by
  rw [fl32_eq_of _ 2 11534336 (by norm_num) (by norm_num [abs_of_pos])
    (by norm_num [abs_of_pos]) (by norm_num [abs_lt])]
  norm_num

theorem fl32_five : fl32 5 = 5 := by
  rw [fl32_eq_of _ 2 10485760 (by norm_num) (by norm_num [abs_of_pos])
    (by norm_num [abs_of_pos]) (by norm_num [abs_lt])]
  norm_num

theorem fl32_half : fl32 (1 / 2) = 1 / 2 := by
  rw [fl32_eq_of _ (-1) 8388608 (by norm_num) (by norm_num [abs_of_pos])
    (by norm_num [abs_of_pos]) (by norm_num [abs_lt])]
  norm_num

theorem fl32_2p31 : fl32 (1 / 2147483648) = 1 / 2147483648 := by
  rw [fl32_eq_of _ (-31) 8388608 (by norm_num) (by norm_num [abs_of_pos])
    (by norm_num [abs_of_pos]) (by norm_num [abs_lt])]
  norm_num

theorem fl32_one_sub_2p31 : fl32 (2147483647 / 2147483648) = 1 := by
  rw [fl32_eq_of _ (-1) 16777216 (by norm_num) (by norm_num [abs_of_pos])
    (by norm_num [abs_of_pos]) (by norm_num [abs_lt])]
  norm_num

/-- The binary32 routine at h = -30, s = 2^-30, v = 1: sector 0 with f = -1/2,
and both `t` and `p` round to 1. -/
theorem HSVtoRGB32_at_neg30 :
    HSVtoRGB32 (-30) (1 / 1073741824) 1 ⟨0, 0, 0, 1⟩ = ⟨1, 1, 1, 1⟩ := by
  have hceil : ⌈(-(1 / 2) : ℚ)⌉ = 0 := by
    rw [Int.ceil_eq_iff]
    norm_num
  norm_num [HSVtoRGB32, truncToInt, fl32_zero, fl32_neg_half, fl32_one_sub_2p30, fl32_one,
    hceil, fl32_three_halves, fl32_three_2p31, fl32_one_sub_three_2p31]

/-- The binary32 routine at h = 330, s = 2^-30, v = 1: sector 5 with f = 1/2,
and both `p` and `q` round to 1. -/
theorem HSVtoRGB32_at_330 :
    HSVtoRGB32 (-30 + 360) (1 / 1073741824) 1 ⟨0, 0, 0, 1⟩ = ⟨1, 1, 1, 1⟩ := by
  norm_num [HSVtoRGB32, truncToInt, fl32_zero, fl32_one_sub_2p30, fl32_one,
    fl32_eleven_halves, fl32_five, fl32_half, fl32_2p31, fl32_one_sub_2p31]

/-- C11 (counterexample). In binary32 arithmetic, at h = -30, s = 2^-30, v = 1 the
routine writes (1, 1, 1) for the hue h and for the hue h + 360 alike: the two
results do not differ, and the green channel written for h is not strictly
below v(1 - s), neither as the exact value 1 - 2^-30 nor as the binary32 value
`p` = 1. -/
theorem C11_counterexample :
    HSVtoRGB32 (-30) (1 / 1073741824) 1 ⟨0, 0, 0, 1⟩ = ⟨1, 1, 1, 1⟩ ∧
    HSVtoRGB32 (-30 + 360) (1 / 1073741824) 1 ⟨0, 0, 0, 1⟩ = ⟨1, 1, 1, 1⟩ ∧
    ¬ (HSVtoRGB32 (-30) (1 / 1073741824) 1 ⟨0, 0, 0, 1⟩
        ≠ HSVtoRGB32 (-30 + 360) (1 / 1073741824) 1 ⟨0, 0, 0, 1⟩) ∧
    ¬ ((HSVtoRGB32 (-30) (1 / 1073741824) 1 ⟨0, 0, 0, 1⟩).g < 1 * (1 - 1 / 1073741824)) ∧
    ¬ ((HSVtoRGB32 (-30) (1 / 1073741824) 1 ⟨0, 0, 0, 1⟩).g
        < fl32 (1 * fl32 (1 - 1 / 1073741824))) := by
  refine ⟨HSVtoRGB32_at_neg30, HSVtoRGB32_at_330, ?_, ?_, ?_⟩
  · rw [HSVtoRGB32_at_neg30, HSVtoRGB32_at_330]
    simp
  · rw [HSVtoRGB32_at_neg30]
    norm_num
  · rw [HSVtoRGB32_at_neg30]
    norm_num [fl32_one_sub_2p30, fl32_one]

end CPLColors
